import Mathlib

/-!
Shallow embedding of the typeyao repository (src/typeyao) in Lean 4.

Conventions used throughout:
* Python attribute values are modelled by `Value := Nat`; the cache and
  field machinery of the source is generic over values and only uses
  equality and hashing on them, so a countable type with decidable
  equality is a faithful instantiation.
* Python `dict`s are modelled as association lists kept in insertion
  order (`List (key × val)`); assignment to an existing key overwrites
  in place, a new key is appended, exactly like CPython dicts.
* Python `set`s of model instances are modelled as `List Inst` with
  membership-guarded insertion; model instances compare by identity in
  Python (no custom `__eq__`), which `DecidableEq Inst` mirrors.
* Raising an exception is modelled with `Except`: an `Except.error`
  result carries the exception and, the embedding being functional,
  produces no new state — mirroring the source's check-before-mutate
  discipline (`UniqueFieldCache.add_model` completes its whole collision
  scan before the first table write).
-/

namespace Typeyao

deriving instance DecidableEq for Except

/-- Values stored in model fields. -/
abbrev Value := Nat

/-- A model instance: an object identity plus its attribute dictionary
(`instance.__dict__`).  Instances compare by identity in the source
(`Model` defines no `__eq__`), which the derived equality mirrors as long
as distinct objects get distinct `oid`s. -/
structure Inst where
  oid : Nat
  attrs : List (String × Value)
deriving DecidableEq, Repr

/-- `getattr(obj, field_name)` for a field stored in the instance dict.
The source never reads a missing attribute on a registered instance, so
the `getD 0` default is unreachable in every theorem below. -/
def Inst.get (i : Inst) (f : String) : Value :=
  (List.lookup f i.attrs).getD 0

/-- `table.get(value)` on one unique-field exact-match table
(`dict[Any, Model]`). -/
def lookupV (t : List (Value × Inst)) (v : Value) : Option Inst :=
  List.lookup v t

/-- `table[value] = obj` on a unique-field table: overwrite the existing
key or append a new one (CPython dict assignment). -/
def insertV (t : List (Value × Inst)) (v : Value) (obj : Inst) :
    List (Value × Inst) :=
  match t with
  | [] => [(v, obj)]
  | (w, o) :: rest =>
      if w = v then (w, obj) :: rest else (w, o) :: insertV rest v obj

/-- `table[value]` lookup on a multi-valued index table
(`defaultdict(list)`), `.get(value, [])`. -/
def lookupL (t : List (Value × List Inst)) (v : Value) : Option (List Inst) :=
  List.lookup v t

/-- `table[value].append(obj)` on a `defaultdict(list)`: a missing key
materialises as `[]` first. -/
def appendL (t : List (Value × List Inst)) (v : Value) (obj : Inst) :
    List (Value × List Inst) :=
  match t with
  | [] => [(v, [obj])]
  | (w, l) :: rest =>
      if w = v then (w, l ++ [obj]) :: rest else (w, l) :: appendL rest v obj

/-- `UniqueFieldCache` from src/typeyao/base/_meta.py: the object IS a
dict from unique field name to exact-match table; `allFieldNames` stands
for `self.model.field_names`, used only by the invalid-kwargs check. -/
structure UniqueFieldCache where
  allFieldNames : List String
  tables : List (String × List (Value × Inst))
deriving DecidableEq, Repr

/-- `IndexFieldCache` from src/typeyao/base/_meta.py: dict from indexed
field name to multi-valued table. -/
structure IndexFieldCache where
  allFieldNames : List String
  tables : List (String × List (Value × List Inst))
deriving DecidableEq, Repr

/-- `ModelCache` from src/typeyao/base/_meta.py: the live instance set
(`self.all`), one `UniqueFieldCache` and one `IndexFieldCache`;
`fieldNames` stands for `self.model.__fields_map__.keys()`. -/
structure ModelCache where
  fieldNames : List String
  ufc : UniqueFieldCache
  ifc : IndexFieldCache
  allL : List Inst
deriving DecidableEq, Repr

/-- `ModelCache(model)` for a schema with the given field names, unique
field names and indexed field names: every table starts empty, the live
set starts empty. -/
def mkModelCache (fieldNames uniqueFields indexFields : List String) :
    ModelCache where
  fieldNames := fieldNames
  ufc := { allFieldNames := fieldNames
           tables := uniqueFields.map (fun f => (f, [])) }
  ifc := { allFieldNames := fieldNames
           tables := indexFields.map (fun f => (f, [])) }
  allL := []

/-- The collision scan of `UniqueFieldCache.add_model`: for every unique
field whose table already holds the instance's value, record
`(field name, colliding value, pre-existing instance)` — the contents of
the `errors` dict the source aggregates. -/
def ufcCollisions (u : UniqueFieldCache) (obj : Inst) :
    List (String × Value × Inst) :=
  u.tables.filterMap fun p =>
    match lookupV p.2 (obj.get p.1) with
    | some existing => some (p.1, obj.get p.1, existing)
    | none => none

/-- `UniqueFieldCache.add_model`: run the full collision scan first; if
any collision was found raise `DuplicateUniqueFieldValueError(errors)`
without touching a single table, otherwise write the instance into every
unique-field table. -/
def ufcAddModel (u : UniqueFieldCache) (obj : Inst) :
    Except (List (String × Value × Inst)) UniqueFieldCache :=
  let errs := ufcCollisions u obj
  if errs.isEmpty then
    .ok { u with
          tables := u.tables.map fun p => (p.1, insertV p.2 (obj.get p.1) obj) }
  else
    .error errs

/-- `IndexFieldCache.add_model`: append the instance to every indexed
field's bucket (never fails). -/
def ifcAddModel (x : IndexFieldCache) (obj : Inst) : IndexFieldCache :=
  { x with tables := x.tables.map fun p => (p.1, appendL p.2 (obj.get p.1) obj) }

/-- Exceptions that can escape the cache's query path. -/
inductive FilterErr where
  /-- `InvalidFieldError`: the predicate names fields the schema lacks. -/
  | invalidField (names : List String)
  /-- `ModelNotFoundError`. -/
  | notFound
  /-- Python `KeyError` — in particular the one `set().pop()` raises in
  `ModelCache.filter`'s unique-field branch. -/
  | keyError
  /-- Python `IndexError` — `list.pop()` on an empty list. -/
  | indexError
deriving DecidableEq, Repr

/-- Exceptions that can escape registration. -/
inductive AddErr where
  /-- `DuplicateUniqueFieldValueError(errors)` with the aggregated
  collision list. -/
  | duplicateUnique (errs : List (String × Value × Inst))
deriving DecidableEq, Repr

/-- The tail of `UniqueFieldCache.filter`: after the single exact-match
lookup produced `m`, every remaining predicate is checked by direct field
comparison; the first mismatch raises `ModelNotFoundError` or returns the
empty set according to `errorIfNotFound`. -/
def ufcCheckRest (errorIfNotFound : Bool) (m : Inst) :
    List (String × Value) → Except FilterErr (List Inst)
  | [] => .ok [m]
  | (gn, gv) :: rest =>
      if m.get gn ≠ gv then
        if errorIfNotFound then .error .notFound else .ok []
      else ufcCheckRest errorIfNotFound m rest

/-- `UniqueFieldCache.filter`: reject unknown field names; pop the LAST
predicate off `list(kwargs.items())` and use that field's exact-match
table for the single lookup; a miss applies `errorIfNotFound`; a hit is
checked against the remaining predicates by direct comparison. -/
def ufcFilter (u : UniqueFieldCache) (errorIfNotFound : Bool)
    (kwargs : List (String × Value)) : Except FilterErr (List Inst) :=
  let invalid :=
    (kwargs.map Prod.fst).filter (fun n => ¬ u.allFieldNames.contains n)
  if ¬ invalid.isEmpty then .error (.invalidField invalid)
  else
    match kwargs.getLast? with
    | none => .error .indexError
    | some (fn, fv) =>
        match List.lookup fn u.tables with
        | none => .error .keyError
        | some tbl =>
            match lookupV tbl fv with
            | none =>
                if errorIfNotFound then .error .notFound else .ok []
            | some m => ufcCheckRest errorIfNotFound m kwargs.dropLast

/-- The `while kwargs_items:` loop of `IndexFieldCache.filter`, already
fed the remaining predicates in pop order (last first): narrow the
candidate list by direct comparison; when it empties, raise
`ModelNotFoundError` if `errorIfNotFound`, otherwise keep looping (the
source has no `break` here). -/
def ifcLoop (errorIfNotFound : Bool) (models : List Inst) :
    List (String × Value) → Except FilterErr (List Inst)
  | [] => .ok models
  | (fn, fv) :: rest =>
      let models' := models.filter (fun m => m.get fn = fv)
      if models'.isEmpty ∧ errorIfNotFound then .error .notFound
      else ifcLoop errorIfNotFound models' rest

/-- `IndexFieldCache.filter`: reject unknown field names; pop the LAST
predicate and read its bucket (`.get(value, [])`, empty when absent);
narrow by the remaining predicates via `ifcLoop`.  Note that when the
bucket is empty and no predicate remains, the empty set is returned
without raising even under `errorIfNotFound = true`. -/
def ifcFilter (x : IndexFieldCache) (errorIfNotFound : Bool)
    (kwargs : List (String × Value)) : Except FilterErr (List Inst) :=
  let invalid :=
    (kwargs.map Prod.fst).filter (fun n => ¬ x.allFieldNames.contains n)
  if ¬ invalid.isEmpty then .error (.invalidField invalid)
  else
    match kwargs.getLast? with
    | none => .error .indexError
    | some (fn, fv) =>
        match List.lookup fn x.tables with
        | none => .error .keyError
        | some tbl =>
            ifcLoop errorIfNotFound ((lookupL tbl fv).getD [])
              kwargs.dropLast.reverse

/-- The secondary check of `ModelCache.filter`'s unique branch: the
object popped from the unique-tier result must match every kwarg that was
not a unique field; mirror of the `for field_name, value in
kwargs.items()` loop ending in `return {obj}`. -/
def mcCheckRest (errorIfNotFound : Bool) (obj : Inst) :
    List (String × Value) → Except FilterErr (List Inst)
  | [] => .ok [obj]
  | (fn, fv) :: rest =>
      if obj.get fn ≠ fv then
        if errorIfNotFound then .error .notFound else .ok []
      else mcCheckRest errorIfNotFound obj rest

/-- The final loop of `ModelCache.filter` (tiers 2 and 3): narrow
`objects` by each remaining predicate; on emptiness raise
`ModelNotFoundError` under `errorIfNotFound`, else `break` returning the
(empty) set. -/
def mcFinalLoop (errorIfNotFound : Bool) :
    List (String × Value) → List Inst → Except FilterErr (List Inst)
  | [], objs => .ok objs
  | (fn, fv) :: rest, objs =>
      let objs' := objs.filter (fun o => o.get fn = fv)
      if objs'.isEmpty then
        if errorIfNotFound then .error .notFound else .ok objs'
      else mcFinalLoop errorIfNotFound rest objs'

/-- `ModelCache.filter` from src/typeyao/base/_meta.py.

1. Unknown field names raise `InvalidFieldError`.
2. Predicates on unique fields are popped out of `kwargs` in the unique
   cache's key order; if any exist, `UniqueFieldCache.filter` runs and
   `.pop()` is called on its result set — on the empty set this raises
   Python `KeyError` (`set.pop` on an empty set), which is the source's
   behaviour when `errorIfNotFound = false` found nothing.
3. Otherwise predicates on indexed fields are popped out and
   `IndexFieldCache.filter` supplies the candidates, else the whole live
   set does; the remaining predicates narrow it in `mcFinalLoop`. -/
def mcFilter (c : ModelCache) (errorIfNotFound : Bool)
    (kwargs : List (String × Value)) : Except FilterErr (List Inst) :=
  let invalid :=
    (kwargs.map Prod.fst).filter (fun n => ¬ c.fieldNames.contains n)
  if ¬ invalid.isEmpty then .error (.invalidField invalid)
  else
    let uniqueNames := c.ufc.tables.map Prod.fst
    let uniqueKw := uniqueNames.filterMap
      (fun fn => (List.lookup fn kwargs).map (fun v => (fn, v)))
    let kwargs1 := kwargs.filter (fun p => ¬ uniqueNames.contains p.1)
    if ¬ uniqueKw.isEmpty then
      match ufcFilter c.ufc errorIfNotFound uniqueKw with
      | .error e => .error e
      | .ok [] => .error .keyError
      | .ok (obj :: _) => mcCheckRest errorIfNotFound obj kwargs1
    else
      let indexNames := c.ifc.tables.map Prod.fst
      let indexKw := indexNames.filterMap
        (fun fn => (List.lookup fn kwargs1).map (fun v => (fn, v)))
      let kwargs2 := kwargs1.filter (fun p => ¬ indexNames.contains p.1)
      let objsE : Except FilterErr (List Inst) :=
        if ¬ indexKw.isEmpty then ifcFilter c.ifc errorIfNotFound indexKw
        else .ok c.allL
      match objsE with
      | .error e => .error e
      | .ok objs => mcFinalLoop errorIfNotFound kwargs2 objs

/-- `ModelCache.add_model`: the unique-field cache is consulted first and
its `DuplicateUniqueFieldValueError` propagates before the index tables
or the live set are touched; only a collision-free instance reaches
`IndexFieldCache.add_model` and `self.all.add`. -/
def mcAddModel (c : ModelCache) (obj : Inst) : Except AddErr ModelCache :=
  match ufcAddModel c.ufc obj with
  | .error errs => .error (.duplicateUnique errs)
  | .ok u' =>
      .ok { c with
            ufc := u'
            ifc := ifcAddModel c.ifc obj
            allL := if obj ∈ c.allL then c.allL else c.allL ++ [obj] }

/-! ## Field descriptors (src/typeyao/fields.py)

Declared types are modelled by `Ty := Nat`; the runtime type inspector
(`check_type` in base/_typing.py) is an external collaborator per the
spec and is passed in as a boolean `conforms` parameter.  Callables
(default factories, `set_<name>` methods) are modelled as `Value`s (the
function objects, which Python compares by identity) together with
ambient application functions; user-callable exceptions are not
modelled.  `ClassVar` annotation detection is not modelled: the shared
status of a field is carried by its `classfield` flag. -/

/-- Declared field types, kept abstract. -/
abbrev Ty := Nat

/-- `FieldInfo` (src/typeyao/fields.py): `none` models `MISSING` for
`name`, `default`, `defaultFactory` and `ty`; `defaultFactory` holds the
factory callable as an object; `unique` stores `__unique` after the
constructor forced it true for primary keys. -/
structure FieldInfo where
  name : Option String
  default : Option Value
  defaultFactory : Option Value
  ty : Option Ty
  const : Bool
  init : Bool
  primaryKey : Bool
  unique : Bool
  index : Bool
  classfield : Bool
  choices : List Value
  reprFlag : Bool
  hashFlag : Bool
  compareFlag : Bool
  ownerN : Option String
deriving DecidableEq, Repr, Inhabited

/-- The keyword arguments of `FieldInfo.__init__` / `Field(...)` that the
claims exercise (`metadata` is stored but never examined and is
omitted). -/
structure FieldCfg where
  name : Option String := none
  default : Option Value := none
  defaultFactory : Option Value := none
  ty : Option Ty := none
  const : Bool := false
  init : Bool := true
  primaryKey : Bool := false
  unique : Bool := false
  index : Bool := false
  classfield : Bool := false
  choices : List Value := []
deriving DecidableEq, Repr

/-- `InvalidFieldError` / `InvalidModelError` raised while building a
schema. -/
inductive FieldErr where
  /-- `FieldInfo.__init__`: "Cannot specify both default and {attr}". -/
  | bothDefaultAnd (attr : String)
  /-- `__set_name__`: the field is already bound to an owner. -/
  | alreadyBound (name : String)
  /-- `__set_name__`: explicit name conflicts with the binding name. -/
  | conflictingNames (given bound : String)
  /-- `__set_name__`: neither an explicit type nor an annotation. -/
  | missingTy (name : String)
  /-- `__set_name__`: explicit type conflicts with the annotation. -/
  | conflictingTypes (name : String)
  /-- `_validate_classvar_default_field`: class field flagged primary key. -/
  | classfieldPk (name : String)
  /-- `_validate_classvar_default_field`: class field flagged unique. -/
  | classfieldUnique (name : String)
  /-- `_validate_classvar_default_field`: class field flagged indexed. -/
  | classfieldIndexed (name : String)
  /-- `_validate_classvar_default_field`: class field with choices. -/
  | classfieldChoices (name : String)
  /-- `_validate_classvar_default_field`: setter is not a classmethod. -/
  | setterNotClassmethod (name : String)
  /-- `_validate_instance_field_defaults`: more than one element in the
  deduplicated source set `{setter, default, default_factory} - {MISSING}`. -/
  | multipleDefaults (name : String)
  /-- `_validate_instance_field_defaults`: `init=False` with no source. -/
  | noDefaultSource (name : String)
deriving DecidableEq, Repr

/-- `FieldInfo.__init__`: force `__unique` true for primary keys, then —
only when `default` is present — reject a non-missing `default_factory`,
a true `unique`, or a true `primary_key`, in that order. -/
def fieldInfoInit (cfg : FieldCfg) : Except FieldErr FieldInfo :=
  let f : FieldInfo :=
    { name := cfg.name
      default := cfg.default
      defaultFactory := cfg.defaultFactory
      ty := cfg.ty
      const := cfg.const
      init := cfg.init
      primaryKey := cfg.primaryKey
      unique := cfg.primaryKey || cfg.unique
      index := cfg.index
      classfield := cfg.classfield
      choices := cfg.choices
      reprFlag := true
      hashFlag := true
      compareFlag := true
      ownerN := none }
  if cfg.default.isSome then
    if f.defaultFactory.isSome then .error (.bothDefaultAnd "default_factory")
    else if f.unique then .error (.bothDefaultAnd "unique")
    else if f.primaryKey then .error (.bothDefaultAnd "primary_key")
    else .ok f
  else .ok f

/-- The owning schema as `__set_name__` sees it: its name, its
`__annotations__`, and its `set_<field>` methods.  An entry
`(n, s, cm)` in `setters` says `getattr(owner, "set_" ++ n)` is the
method object `s`, a classmethod iff `cm`. -/
structure Owner where
  ownerName : String
  annots : List (String × Ty)
  setters : List (String × Value × Bool)
deriving DecidableEq, Repr

/-- `getattr(owner, "set_" ++ name, MISSING)`. -/
def ownerSetter (o : Owner) (name : String) : Option (Value × Bool) :=
  List.lookup name o.setters

/-- The deduplicated default-source set of
`_validate_instance_field_defaults`:
`{getattr(owner, "set_"+name, MISSING), self.default,`
`self.default_factory} - {MISSING}` — a Python set, so two sources that
are the very same object collapse to one element. -/
def distinctSources (o : Owner) (name : String) (f : FieldInfo) : List Value :=
  (((ownerSetter o name).map Prod.fst).toList
    ++ f.default.toList ++ f.defaultFactory.toList).dedup

/-- `FieldInfo._validate_instance_field_defaults`. -/
def validateInstanceFieldDefaults (o : Owner) (name : String) (f : FieldInfo) :
    Except FieldErr Unit :=
  if 1 < (distinctSources o name f).length then
    .error (.multipleDefaults name)
  else if f.init = false ∧ (distinctSources o name f).length = 0 then
    .error (.noDefaultSource name)
  else .ok ()

/-- `FieldInfo._validate_classvar_default_field`. -/
def validateClassvarDefaultField (o : Owner) (name : String) (f : FieldInfo) :
    Except FieldErr Unit :=
  if f.primaryKey then .error (.classfieldPk name)
  else if f.unique then .error (.classfieldUnique name)
  else if f.index then .error (.classfieldIndexed name)
  else if ¬ f.choices.isEmpty then .error (.classfieldChoices name)
  else
    match ownerSetter o name with
    | some (_, false) => .error (.setterNotClassmethod name)
    | _ => validateInstanceFieldDefaults o name f

/-- The type-resolution step of `__set_name__`: an explicit type or the
annotation must be present, and both together must agree. -/
def resolveTy (fty : Option Ty) (ann : Option Ty) (name : String) :
    Except FieldErr Ty :=
  match fty, ann with
  | none, none => .error (.missingTy name)
  | none, some a => .ok a
  | some t, some a =>
      if t ≠ a then .error (.conflictingTypes name) else .ok t
  | some t, none => .ok t

/-- `FieldInfo.__set_name__`: reject a second binding and a conflicting
explicit name; resolve the declared type against the annotation; then
validate the default sources — class fields through
`_validate_classvar_default_field` (which also forces
`init/repr/hash/compare` off and computes the shared default by calling
the setter, else the factory, via `callFn`), instance fields through
`_validate_instance_field_defaults` — and finally record name and
owner. -/
def bindField (callFn : Value → Value) (o : Owner) (name : String)
    (f : FieldInfo) : Except FieldErr FieldInfo :=
  if f.ownerN.isSome then .error (.alreadyBound name)
  else if f.name.getD name ≠ name then
    .error (.conflictingNames (f.name.getD name) name)
  else
    match resolveTy f.ty (List.lookup name o.annots) name with
    | .error e => .error e
    | .ok t =>
        let f1 := { f with ty := some t }
        if f1.classfield then
          match validateClassvarDefaultField o name f1 with
          | .error e => .error e
          | .ok _ =>
              let f2 := { f1 with
                          classfield := true, init := false, reprFlag := false
                          hashFlag := false, compareFlag := false }
              let f3 :=
                match ownerSetter o name with
                | some (s, _) => { f2 with default := some (callFn s) }
                | none =>
                    match f2.defaultFactory with
                    | some g => { f2 with default := some (callFn g) }
                    | none => f2
              .ok { f3 with name := some name, ownerN := some o.ownerName }
        else
          match validateInstanceFieldDefaults o name f1 with
          | .error e => .error e
          | .ok _ => .ok { f1 with name := some name, ownerN := some o.ownerName }

/-- `FieldInfo.copy()`: identical configuration, owner and name
cleared (a fresh, unbound descriptor). -/
def copyCfg (f : FieldInfo) : FieldInfo :=
  { f with name := none, ownerN := none }

/-! ## Schema registry (src/typeyao/base/_meta.py, `ModelFieldMap` and
`ModelMeta._namespace_constructor`)

Descriptor identity matters here (shared fields are inherited by
reference, non-shared ones are copied), so descriptors live in an
explicit heap `FieldStore`; a `Ref` is an index into it and plays the
role of a Python object reference.  `FieldInfo.copy()` allocates a fresh
cell. -/

/-- References into the descriptor heap. -/
abbrev Ref := Nat

/-- The descriptor heap. -/
abbrev FieldStore := List FieldInfo

/-- Allocate a fresh descriptor. -/
def allocF (store : FieldStore) (f : FieldInfo) : FieldStore × Ref :=
  (store ++ [f], store.length)

/-- Dereference (total; theorems only deref valid references). -/
def derefF (store : FieldStore) (r : Ref) : FieldInfo :=
  store.getD r default

/-- `FieldInfo.name`: the bound/explicit name, or `"Unnamed"`. -/
def displayName (f : FieldInfo) : String :=
  f.name.getD "Unnamed"

/-- Errors raised by the schema registry. -/
inductive MetaErr where
  /-- `ModelFieldMap.__setitem__`: "Cannot have multiple primary keys:
  {self.pk.name!r} and {key!r}" — carries exactly the two names the
  message interpolates (an `InvalidModelError`). -/
  | multiplePk (firstName key : String)
  /-- `_namespace_constructor` line 137 executes
  `namespace["__annotations__"][name] = field.type` unguarded after
  storing an inherited copy; when the class body contains no annotated
  statement the namespace dict has no `__annotations__` key and Python
  raises `KeyError("__annotations__")`. -/
  | keyErrAnn
deriving DecidableEq, Repr

/-- `ModelFieldMap`: an ordered dict from field name to descriptor plus
the `pk` slot. -/
structure FieldMap where
  entries : List (String × Ref)
  pk : Option Ref
deriving DecidableEq, Repr

/-- Ordered-dict assignment on a name-to-ref dict. -/
def entUpsert (l : List (String × Ref)) (k : String) (r : Ref) :
    List (String × Ref) :=
  match l with
  | [] => [(k, r)]
  | (k', r') :: rest =>
      if k' = k then (k, r) :: rest else (k', r') :: entUpsert rest k r

/-- `ModelFieldMap.__setitem__`: a second primary-key descriptor raises
`InvalidModelError` naming `self.pk.name` (the already-stored
descriptor's recorded name — `"Unnamed"` when it has none) and the new
key; otherwise store the descriptor (and the pk slot when flagged). -/
def fmSetItem (store : FieldStore) (m : FieldMap) (key : String) (r : Ref) :
    Except MetaErr FieldMap :=
  if (derefF store r).primaryKey then
    match m.pk with
    | some p => .error (.multiplePk (displayName (derefF store p)) key)
    | none => .ok { entries := entUpsert m.entries key r, pk := some r }
  else .ok { m with entries := entUpsert m.entries key r }

/-- A value of the class namespace, as `ModelFieldMap.from_namespace`
classifies it. -/
inductive NsVal where
  /-- An assigned `FieldInfo` living at heap cell `r`. -/
  | fieldI (r : Ref)
  /-- A plain assigned value, to be wrapped into a descriptor. -/
  | plain (v : Value)
  /-- A function / method / classmethod / property: skipped. -/
  | callable
deriving DecidableEq, Repr

/-- `name.startswith("_")`, evaluated on the character list
(`String.startsWith` itself does not reduce in the kernel). -/
def underscored (n : String) : Bool :=
  match n.data with
  | [] => false
  | c :: _ => c = '_'

/-- Is the namespace entry skipped by `from_namespace`'s field-name
comprehension (`_`-prefixed non-FieldInfo, or a callable/property)? -/
def isSkipped (n : String) (v : NsVal) : Bool :=
  (underscored n && !(match v with | .fieldI _ => true | _ => false))
    || (match v with | .callable => true | _ => false)

/-- `FieldInfo(name=name, type=annotation)` for an annotation-only
declaration — never primary-key flagged. -/
def mkAnnotField (n : String) (t : Ty) : FieldInfo :=
  { name := some n, default := none, defaultFactory := none, ty := some t
    const := false, init := true, primaryKey := false, unique := false
    index := false, classfield := false, choices := [], reprFlag := true
    hashFlag := true, compareFlag := true, ownerN := none }

/-- `FieldInfo(name=name, default=value, type=annotations.get(name,
MISSING))` wrapping a plain assigned value — never primary-key flagged,
and its `__init__` duplicate-source check cannot fire. -/
def mkPlainField (n : String) (v : Value) (t : Option Ty) : FieldInfo :=
  { name := some n, default := some v, defaultFactory := none, ty := t
    const := false, init := true, primaryKey := false, unique := false
    index := false, classfield := false, choices := [], reprFlag := true
    hashFlag := true, compareFlag := true, ownerN := none }

/-- The names of a namespace. -/
def nsNames (ns : List (String × NsVal)) : List String :=
  ns.map Prod.fst

/-- First loop of `from_namespace`: every annotated name that is not in
the namespace and not `_`-prefixed gets a fresh default-free
descriptor. -/
def annotLoop (ns : List (String × NsVal)) (store : FieldStore)
    (m : FieldMap) : List (String × Ty) → Except MetaErr (FieldMap × FieldStore)
  | [] => .ok (m, store)
  | (n, t) :: rest =>
      if ¬ (nsNames ns).contains n ∧ ¬ underscored n then
        match allocF store (mkAnnotField n t) with
        | (store', r) =>
            match fmSetItem store' m n r with
            | .error e => .error e
            | .ok m' => annotLoop ns store' m' rest
      else annotLoop ns store m rest

/-- Second loop of `from_namespace`: assigned `FieldInfo`s are stored
as-is, plain values are wrapped, callables and private names are
skipped. -/
def nsLoop (annots : List (String × Ty)) (store : FieldStore)
    (m : FieldMap) : List (String × NsVal) → Except MetaErr (FieldMap × FieldStore)
  | [] => .ok (m, store)
  | (n, v) :: rest =>
      if isSkipped n v then nsLoop annots store m rest
      else
        match v with
        | .fieldI r =>
            match fmSetItem store m n r with
            | .error e => .error e
            | .ok m' => nsLoop annots store m' rest
        | .plain pv =>
            match allocF store (mkPlainField n pv (List.lookup n annots)) with
            | (store', r) =>
                match fmSetItem store' m n r with
                | .error e => .error e
                | .ok m' => nsLoop annots store' m' rest
        | .callable => nsLoop annots store m rest

/-- `ModelFieldMap.from_namespace`. -/
def fromNamespaceR (store : FieldStore) (annots : List (String × Ty))
    (ns : List (String × NsVal)) : Except MetaErr (FieldMap × FieldStore) :=
  match annotLoop ns store ⟨[], none⟩ annots with
  | .error e => .error e
  | .ok (m, store1) => nsLoop annots store1 m ns

/-- The names of a field map. -/
def fmNames (m : FieldMap) : List String :=
  m.entries.map Prod.fst

/-- The per-parent field loop of `_namespace_constructor`: a parent
field whose name the map already has is skipped; a shared (classfield)
one is linked into `class_fields_map` by reference; any other one is
copied into a fresh cell, stored through `__setitem__`, and then its
type is written into `namespace["__annotations__"]` — which raises
`KeyError` when the class namespace has no `__annotations__` key
(`hasAnn = false`); nothing modelled later reads the written value, so
only the raise is kept. -/
def inheritFields (hasAnn : Bool) (store : FieldStore) (m : FieldMap)
    (cfm : List (String × Ref)) :
    List (String × Ref) →
      Except MetaErr (FieldMap × List (String × Ref) × FieldStore)
  | [] => .ok (m, cfm, store)
  | (n, r) :: rest =>
      if ¬ (fmNames m).contains n then
        if (derefF store r).classfield then
          inheritFields hasAnn store m (entUpsert cfm n r) rest
        else
          match allocF store (copyCfg (derefF store r)) with
          | (store', r') =>
              match fmSetItem store' m n r' with
              | .error e => .error e
              | .ok m' =>
                  if hasAnn then inheritFields hasAnn store' m' cfm rest
                  else .error .keyErrAnn
      else inheritFields hasAnn store m cfm rest

/-- The bases loop of `_namespace_constructor`: each parent's
`__fields_map__`, in base-declaration order. -/
def inheritLoop (hasAnn : Bool) (store : FieldStore) (m : FieldMap)
    (cfm : List (String × Ref)) :
    List (List (String × Ref)) →
      Except MetaErr (FieldMap × List (String × Ref) × FieldStore)
  | [] => .ok (m, cfm, store)
  | p :: ps =>
      match inheritFields hasAnn store m cfm p with
      | .error e => .error e
      | .ok (m', cfm', store') => inheritLoop hasAnn store' m' cfm' ps

/-- `{**fields_map, **class_fields_map}`: copy the first dict, then
update with the second in order. -/
def mergeDicts (a b : List (String × Ref)) : List (String × Ref) :=
  b.foldl (fun acc p => entUpsert acc p.1 p.2) a

/-- `ModelMeta._namespace_constructor`: build the own field map from the
class body, inherit from the parents, and return the merged
`__fields_map__` (plus the own map, whose entries are also written back
into the namespace for binding, and the final heap).  `annotsOpt`
models the `__annotations__` entry of the class namespace dict: `none`
when the class body contains no annotated statement (CPython then never
creates the key), `some annots` otherwise.  `from_namespace` reads it
through `namespace.get("__annotations__", {})`, while the inheritance
loop indexes `namespace["__annotations__"]` directly and so raises
`KeyError` on `none`. -/
def namespaceCtorR (store : FieldStore)
    (annotsOpt : Option (List (String × Ty)))
    (ns : List (String × NsVal)) (parents : List (List (String × Ref))) :
    Except MetaErr (List (String × Ref) × FieldMap × FieldStore) :=
  match fromNamespaceR store (annotsOpt.getD []) ns with
  | .error e => .error e
  | .ok (m, store1) =>
      match inheritLoop annotsOpt.isSome store1 m [] parents with
      | .error e => .error e
      | .ok (m', cfm, store2) => .ok (mergeDicts m'.entries cfm, m', store2)

/-! ## Instance construction (src/typeyao/model.py)

`conforms` stands for the external type-conformance checker
(`check_type`); `callFactory f` is the result of calling the factory
object `f`; `callSetter s st` is the result of calling the bound setter
object `s` on an instance whose `__dict__` is currently `st`.  The
source iterates over Python sets of fields in these routines; the
embedding iterates in field-map order, a deterministic refinement of the
source's unspecified set order. -/

/-- An instance's `__dict__`. -/
abbrev Store := List (String × Value)

/-- Dict assignment `instance.__dict__[name] = value`. -/
def storeSet (st : Store) (n : String) (v : Value) : Store :=
  match st with
  | [] => [(n, v)]
  | (n', v') :: rest =>
      if n' = n then (n, v) :: rest else (n', v') :: storeSet rest n v

/-- A concrete schema as the instance constructor sees it: the bound
`__fields_map__` (descriptor identity no longer matters here) and the
`set_<name>` methods reachable from an instance. -/
structure Schema where
  fieldsMap : List (String × FieldInfo)
  setters : List (String × Value)
deriving DecidableEq, Repr

/-- `hasattr(self, "set_" ++ n)`. -/
def hasSetter (sch : Schema) (n : String) : Bool :=
  (List.lookup n sch.setters).isSome

/-- Per-field failure kinds inside instance construction. -/
inductive InitErrK where
  /-- "{kw} is not a field" assertion. -/
  | notAField
  /-- "'{name}' is a class variable" assertion. -/
  | isClassfield
  /-- "'{name}' field has init=False" assertion. -/
  | initFalse
  /-- `_validate_value_type`'s `assert not isinstance(self.type, MissingType)`. -/
  | typeUnset
  /-- `InvalidTypeError` from `check_type`. -/
  | typeMismatch
  /-- `InvalidTypeError` from the choices check. -/
  | choiceViolation
deriving DecidableEq, Repr

/-- Exceptions raised by `Model.__init__`. -/
inductive InitErr where
  /-- `InvalidModelError` aggregating all `__init_kwargs__` failures. -/
  | invalidModel (errors : List (String × InitErrK))
  /-- `InvalidModelError` "Missing fields: ..." from `__init_defaults__`. -/
  | missingFields (names : List String)
  /-- An `InvalidTypeError` escaping a defaults-phase `setattr` (not
  aggregated there). -/
  | typeErr (name : String) (k : InitErrK)
deriving DecidableEq, Repr

/-- `FieldInfo._validate_value_type`: the declared type must be set, the
value must conform to it, and must be among the choices when choices are
configured. -/
def validateValueType (conforms : Ty → Value → Bool) (f : FieldInfo)
    (v : Value) : Option InitErrK :=
  match f.ty with
  | none => some .typeUnset
  | some t =>
      if ¬ conforms t v then some .typeMismatch
      else if ¬ f.choices.isEmpty ∧ ¬ f.choices.contains v then
        some .choiceViolation
      else none

/-- `setattr(self, name, value)` through `FieldInfo.__set__`: the
validate-and-store contract shared by keyword assignment and default
filling. -/
def setattrE (conforms : Ty → Value → Bool) (f : FieldInfo) (n : String)
    (v : Value) (st : Store) : Except InitErr Store :=
  match validateValueType conforms f v with
  | some k => .error (.typeErr n k)
  | none => .ok (storeSet st n v)

/-- The keyword loop of `Model.__init_kwargs__`: collect per-keyword
failures instead of raising, storing the valid assignments. -/
def kwargsLoop (conforms : Ty → Value → Bool) (sch : Schema) (st : Store)
    (errs : List (String × InitErrK)) :
    List (String × Value) → Store × List (String × InitErrK)
  | [] => (st, errs)
  | (kw, v) :: rest =>
      match List.lookup kw sch.fieldsMap with
      | none => kwargsLoop conforms sch st (errs ++ [(kw, .notAField)]) rest
      | some f =>
          if f.classfield then
            kwargsLoop conforms sch st (errs ++ [(kw, .isClassfield)]) rest
          else if ¬ f.init then
            kwargsLoop conforms sch st (errs ++ [(kw, .initFalse)]) rest
          else
            match validateValueType conforms f v with
            | some k => kwargsLoop conforms sch st (errs ++ [(kw, k)]) rest
            | none => kwargsLoop conforms sch (storeSet st kw v) errs rest

/-- `Model.__init_kwargs__`: raise one aggregated `InvalidModelError`
when any keyword failed. -/
def modelInitKwargs (conforms : Ty → Value → Bool) (sch : Schema)
    (kwargs : List (String × Value)) : Except InitErr Store :=
  match kwargsLoop conforms sch [] [] kwargs with
  | (st, errs) => if errs.isEmpty then .ok st else .error (.invalidModel errs)

/-- The non-shared fields not excluded (not supplied as keywords) that
`__init_defaults__` must fill. -/
def initFieldsOf (sch : Schema) (exclude : List String) :
    List (String × FieldInfo) :=
  sch.fieldsMap.filter fun nf => ¬ exclude.contains nf.1 ∧ ¬ nf.2.classfield

/-- One phase of `__init_defaults__`: apply `step` to each field in
order, propagating the first failure (these `setattr`s raise, they are
not aggregated). -/
def phaseFold (step : Store → String × FieldInfo → Except InitErr Store) :
    List (String × FieldInfo) → Store → Except InitErr Store
  | [], st => .ok st
  | nf :: rest, st =>
      match step st nf with
      | .error e => .error e
      | .ok st' => phaseFold step rest st'

/-- `setattr(self, field.name, field.default)`. -/
def defaultStep (conforms : Ty → Value → Bool) :
    Store → String × FieldInfo → Except InitErr Store :=
  fun st nf => setattrE conforms nf.2 nf.1 (nf.2.default.getD 0) st

/-- `setattr(self, field.name, field.default_factory())`. -/
def factoryStep (conforms : Ty → Value → Bool) (callFactory : Value → Value) :
    Store → String × FieldInfo → Except InitErr Store :=
  fun st nf =>
    setattrE conforms nf.2 nf.1 (callFactory (nf.2.defaultFactory.getD 0)) st

/-- `setattr(self, field.name, getattr(self, "set_"+field.name)())` —
the setter object is looked up on the schema and applied to the current
instance state. -/
def setterStep (conforms : Ty → Value → Bool)
    (callSetter : Value → Store → Value) (sch : Schema) :
    Store → String × FieldInfo → Except InitErr Store :=
  fun st nf =>
    setattrE conforms nf.2 nf.1
      (callSetter ((List.lookup nf.1 sch.setters).getD 0) st) st

/-- `fields_with_defaults`. -/
def withDefaultsOf (sch : Schema) (exclude : List String) :
    List (String × FieldInfo) :=
  (initFieldsOf sch exclude).filter fun nf => nf.2.default.isSome

/-- `fields_with_default_factories`. -/
def withFactoriesOf (sch : Schema) (exclude : List String) :
    List (String × FieldInfo) :=
  (initFieldsOf sch exclude).filter fun nf => nf.2.defaultFactory.isSome

/-- `fields_with_setters`. -/
def withSettersOf (sch : Schema) (exclude : List String) :
    List (String × FieldInfo) :=
  (initFieldsOf sch exclude).filter fun nf => hasSetter sch nf.1

/-- `missing_fields`: the non-shared, non-excluded fields with no setter,
no default factory and no static default (the set difference in
`__init_defaults__`). -/
def noSourceFields (sch : Schema) (exclude : List String) :
    List (String × FieldInfo) :=
  (initFieldsOf sch exclude).filter fun nf =>
    ¬ hasSetter sch nf.1 ∧ nf.2.defaultFactory.isNone ∧ nf.2.default.isNone

/-- `Model.__init_defaults__`: among the non-shared, non-excluded
fields, those with neither a setter nor a factory nor a static default
abort construction in one aggregated missing-fields error; otherwise the
static defaults are applied first, then the default factories, then the
setter-derived values, each through the `setattrE` contract. -/
def modelInitDefaults (conforms : Ty → Value → Bool)
    (callFactory : Value → Value) (callSetter : Value → Store → Value)
    (sch : Schema) (exclude : List String) (st0 : Store) :
    Except InitErr Store :=
  let missing := noSourceFields sch exclude
  if ¬ missing.isEmpty then .error (.missingFields (missing.map Prod.fst))
  else
    match phaseFold (defaultStep conforms) (withDefaultsOf sch exclude) st0 with
    | .error e => .error e
    | .ok st1 =>
        match phaseFold (factoryStep conforms callFactory)
            (withFactoriesOf sch exclude) st1 with
        | .error e => .error e
        | .ok st2 =>
            phaseFold (setterStep conforms callSetter sch)
              (withSettersOf sch exclude) st2

/-- `Model.__init__` up to the fully-populated instance state: keyword
assignment, then default filling with the supplied names excluded.  The
abstract-schema guard, the no-op `__post_init__` hook and the cache
registration hand-off do not touch the instance's `__dict__` and are not
modelled here. -/
def modelInit (conforms : Ty → Value → Bool) (callFactory : Value → Value)
    (callSetter : Value → Store → Value) (sch : Schema)
    (kwargs : List (String × Value)) : Except InitErr Store :=
  match modelInitKwargs conforms sch kwargs with
  | .error e => .error e
  | .ok st =>
      modelInitDefaults conforms callFactory callSetter sch
        (kwargs.map Prod.fst) st

/-- `Model.dict()`: one entry per field of `__fields_map__`, read through
the descriptor — the schema-level default for a shared field, the
instance dict for the rest. -/
def modelDict (sch : Schema) (st : Store) : List (String × Value) :=
  sch.fieldsMap.map fun nf =>
    (nf.1, if nf.2.classfield then nf.2.default.getD 0
           else (List.lookup nf.1 st).getD 0)

/-! ## Specification-side mirrors

The following definitions restate, from the claims' wording, which
primary-key-flagged descriptors the merged field map of a schema
definition would receive, in processing order, together with the name
each one would be reported under (`ModelFieldMap.__setitem__`
interpolates `self.pk.name`, which is `"Unnamed"` for a descriptor with
no recorded name — in particular for every inherited copy, since
`FieldInfo.copy()` clears the name).  They are compared with the
embedded pipeline in the theorems on claim C4. -/

/-- The primary-key-flagged inserts the namespace loop performs:
`(key, reported name of the descriptor)` in order.  Annotation-only
fields and wrapped plain values are never primary-key flagged. -/
def nsPkL (store : FieldStore) : List (String × NsVal) → List (String × String)
  | [] => []
  | (n, v) :: rest =>
      if isSkipped n v then nsPkL store rest
      else
        match v with
        | .fieldI r =>
            if (derefF store r).primaryKey then
              (n, displayName (derefF store r)) :: nsPkL store rest
            else nsPkL store rest
        | _ => nsPkL store rest

/-- The primary-key-flagged inserts the inheritance loop performs over
the flattened parents, tracking the shadowing name set exactly as
`_namespace_constructor` does (shared fields bypass `__setitem__` and do
not shadow); an inherited copy is always reported as `"Unnamed"`. -/
def inhPkL (store : FieldStore) : List String → List (String × Ref) → List (String × String)
  | _, [] => []
  | names, (n, r) :: rest =>
      if names.contains n then inhPkL store names rest
      else if (derefF store r).classfield then inhPkL store names rest
      else if (derefF store r).primaryKey then
        (n, "Unnamed") :: inhPkL store (names ++ [n]) rest
      else inhPkL store (names ++ [n]) rest

/-- The names the annotation loop inserts into the own field map. -/
def annotInsertNames (ns : List (String × NsVal))
    (annots : List (String × Ty)) : List String :=
  (annots.filter fun p =>
      ¬ (nsNames ns).contains p.1 ∧ ¬ underscored p.1).map Prod.fst

/-- The names the namespace loop inserts into the own field map. -/
def nsInsertNames (ns : List (String × NsVal)) : List String :=
  (ns.filter fun p => ¬ isSkipped p.1 p.2).map Prod.fst

/-- The names `from_namespace` inserts into the own field map. -/
def ownNames (annots : List (String × Ty)) (ns : List (String × NsVal)) :
    List String :=
  annotInsertNames ns annots ++ nsInsertNames ns

/-- All primary-key-flagged inserts of one schema definition, in
processing order. -/
def pkSeq (store : FieldStore) (annots : List (String × Ty))
    (ns : List (String × NsVal)) (parents : List (List (String × Ref))) :
    List (String × String) :=
  nsPkL store ns ++ inhPkL store (ownNames annots ns) parents.flatten

/-! ## Concrete inputs used by the closed theorems below -/

/-- A schema cache with one unique field `u` and one plain field `x`,
holding no instance yet. -/
def c1Cache : ModelCache := mkModelCache ["u", "x"] ["u"] []

/-- An instance with two unique-field values. -/
def instA3 : Inst := { oid := 0, attrs := [("u1", 1), ("u2", 2)] }

/-- The cache of a schema with two unique fields after `instA3` was
registered. -/
def c3Cache : ModelCache :=
  { fieldNames := ["u1", "u2"]
    ufc := { allFieldNames := ["u1", "u2"]
             tables := [("u1", [(1, instA3)]), ("u2", [(2, instA3)])] }
    ifc := { allFieldNames := ["u1", "u2"], tables := [] }
    allL := [instA3] }

/-- An unbound primary-key descriptor with no explicit name, as
`Field(primary_key=True)` constructs it. -/
def pkFieldNoName : FieldInfo :=
  { name := none, default := none, defaultFactory := none, ty := some 0
    const := false, init := true, primaryKey := true, unique := true
    index := false, classfield := false, choices := [], reprFlag := true
    hashFlag := true, compareFlag := true, ownerN := none }

/-- A bound primary-key descriptor `g` owned by a parent schema. -/
def parentPkField : FieldInfo :=
  { pkFieldNoName with name := some "g", ownerN := some "P" }

/-- A bound, non-shared parent field `f` with static default `1`. -/
def parentFieldA : FieldInfo :=
  { name := some "f", default := some 1, defaultFactory := none, ty := some 0
    const := false, init := true, primaryKey := false, unique := false
    index := false, classfield := false, choices := [], reprFlag := true
    hashFlag := true, compareFlag := true, ownerN := some "P1" }

/-- A bound, non-shared parent field `f` with static default `2`. -/
def parentFieldB : FieldInfo :=
  { parentFieldA with default := some 2, ownerN := some "P2" }

/-- The configuration `Field(default=set_x, type=...)` whose default is
the very same object (`7`) as the schema method `set_x`. -/
def cfgSameObj : FieldCfg := { default := some 7, ty := some 0 }

/-- A schema owner `M` with annotation `x : 0` and a non-classmethod
`set_x` whose function object is `7`. -/
def ownerSameObj : Owner :=
  { ownerName := "M", annots := [("x", 0)], setters := [("x", (7, false))] }

/-- The field `x` as `bindField` leaves it on `M`. -/
def boundSameObj : FieldInfo :=
  { name := some "x", default := some 7, defaultFactory := none, ty := some 0
    const := false, init := true, primaryKey := false, unique := false
    index := false, classfield := false, choices := [], reprFlag := true
    hashFlag := true, compareFlag := true, ownerN := some "M" }

/-- The schema `M` as the instance constructor sees it. -/
def schemaSameObj : Schema :=
  { fieldsMap := [("x", boundSameObj)], setters := [("x", 7)] }

/-- The descriptor `FieldInfo.__init__` builds from `cfgSameObj`
(unbound: no name, no owner). -/
def fieldSameObjInit : FieldInfo :=
  { boundSameObj with name := none, ownerN := none }

/-- An unbound descriptor whose default `3` is a DIFFERENT object from
the `set_x` method `7`. -/
def fieldDistinctObj : FieldInfo :=
  { fieldSameObjInit with default := some 3 }

/-- The non-shared field `a` with no default source (to be supplied by
keyword). -/
def fieldAkw : FieldInfo :=
  { boundSameObj with name := some "a", default := none }

/-- The non-shared field `b` with static default `5`. -/
def fieldBdef : FieldInfo :=
  { boundSameObj with name := some "b", default := some 5 }

/-- The round-trip schema with fields `a` and `b`. -/
def schemaRT : Schema :=
  { fieldsMap := [("a", fieldAkw), ("b", fieldBdef)], setters := [] }

/-- An instance with one attribute `a = 5`. -/
def instW0 : Inst := { oid := 0, attrs := [("a", 5)] }

/-- A second, distinct instance with the same attribute value. -/
def instW1 : Inst := { oid := 1, attrs := [("a", 5)] }

/-- A one-unique-field cache holding `instW0`. -/
def cacheW : ModelCache :=
  { fieldNames := ["a"]
    ufc := { allFieldNames := ["a"], tables := [("a", [(5, instW0)])] }
    ifc := { allFieldNames := ["a"], tables := [] }
    allL := [instW0] }

/-! ## Theorems -/

/-- C9: for every concrete schema, calling `filter` with an empty
predicate mapping returns the entire live instance set and raises no
error, for both values of `error_if_not_found` — including when the live
set is empty (the universal quantification over the cache covers it). -/
theorem c9_empty_filter_returns_all (c : ModelCache) (einf : Bool) :
    mcFilter c einf [] = .ok c.allL := by
  simp [mcFilter, mcFinalLoop, List.lookup]

/-- C1: the claim that `filter` with `error_if_not_found=False` on a
predicate set matching zero instances returns an empty set and never
raises FAILS on the code when the predicate set includes a unique field
whose value is absent from the unique-field table: the inner
`UniqueFieldCache.filter` dutifully returns the empty set, but
`ModelCache.filter` immediately calls `.pop()` on it, which raises
Python `KeyError` (`pop from an empty set`).  Failing input: a schema
with unique field `u` and empty cache, `filter(error_if_not_found=False,
u=1)`. -/
theorem c1_unique_miss_pops_empty_set :
    mcFilter c1Cache false [("u", 1)] = .error .keyError ∧
    ufcFilter c1Cache.ufc false [("u", 1)] = .ok [] := by
  exact ⟨rfl, rfl⟩

/-- C3: the Tier-1 description FAILS on the code in its
`error_if_not_found` clause: when the unique-table candidate is found
but fails another predicate of the unique-field group, the inner filter
returns the empty set under `error_if_not_found=False` and
`ModelCache.filter`'s `.pop()` raises Python `KeyError` instead of the
claimed empty result.  (The single-table lookup also uses the LAST
unique predicate popped off the kwargs list, not the first encountered.)
Failing input: instance with `u1=1, u2=2` registered; filter
`u1=999, u2=2` with `error_if_not_found=False`. -/
theorem c3_unique_candidate_secondary_mismatch_keyerror :
    mcAddModel (mkModelCache ["u1", "u2"] ["u1", "u2"] []) instA3 = .ok c3Cache ∧
    mcFilter c3Cache false [("u1", 999), ("u2", 2)] = .error .keyError ∧
    instA3.get "u2" = 2 ∧ ¬ instA3.get "u1" = 999 := by
  exact ⟨rfl, rfl, rfl, by decide⟩

/-- C2: registration is all-or-nothing on unique-value collisions.
First conjunct: whenever the collision scan finds anything, registration
returns precisely the `DuplicateUniqueFieldValueError` aggregating every
colliding unique field `(name, value, pre-existing instance)` — and,
the embedding being functional, produces no successor state: no unique
table, no index table and not the live set is touched (the source
completes the whole scan before its first table write, and
`ModelCache.add_model` consults the unique cache before the index cache
and the live set).  Second conjunct: registering `i1` into a fresh cache
and then an `i2` sharing its value on a unique field `u` leaves the live
set containing exactly `i1`, and the second call fails with a
duplicate-unique-value error naming `u` with its colliding value and
`i1`. -/
theorem c2_collision_aggregates_and_mutates_nothing :
    (∀ (c : ModelCache) (obj : Inst), ufcCollisions c.ufc obj ≠ [] →
        mcAddModel c obj = .error (.duplicateUnique (ufcCollisions c.ufc obj))) ∧
    (∀ (fns ufs ifs : List String) (u : String) (i1 i2 : Inst)
        (c1 : ModelCache), u ∈ ufs → i2.get u = i1.get u →
        mcAddModel (mkModelCache fns ufs ifs) i1 = .ok c1 →
        c1.allL = [i1] ∧
        ∃ errs, mcAddModel c1 i2 = .error (.duplicateUnique errs) ∧
          errs ≠ [] ∧ (u, i2.get u, i1) ∈ errs) := by
  have hfresh : ∀ (fns ufs ifs : List String) (i : Inst),
      ufcCollisions (mkModelCache fns ufs ifs).ufc i = [] := by
    intro fns ufs ifs i
    simp [ufcCollisions, mkModelCache, List.filterMap_map, lookupV,
      Function.comp, List.lookup]
  have herr : ∀ (c : ModelCache) (obj : Inst), ufcCollisions c.ufc obj ≠ [] →
      mcAddModel c obj = .error (.duplicateUnique (ufcCollisions c.ufc obj)) := by
    intro c obj h
    unfold mcAddModel ufcAddModel
    rw [if_neg (by simpa [List.isEmpty_iff] using h)]
  refine ⟨herr, ?_⟩
  intro fns ufs ifs u i1 i2 c1 hu heq h1
  have hstep : mcAddModel (mkModelCache fns ufs ifs) i1 =
      .ok { fieldNames := fns
            ufc := { allFieldNames := fns
                     tables := ufs.map fun f => (f, [(i1.get f, i1)]) }
            ifc := { allFieldNames := fns
                     tables := ifs.map fun f => (f, [(i1.get f, [i1])]) }
            allL := [i1] } := by
    unfold mcAddModel ufcAddModel
    rw [if_pos (by simp [hfresh fns ufs ifs i1])]
    simp [mkModelCache, ifcAddModel, List.map_map, Function.comp, insertV,
      appendL]
  rw [hstep] at h1
  have hc1 : c1 = { fieldNames := fns
                    ufc := { allFieldNames := fns
                             tables := ufs.map fun f => (f, [(i1.get f, i1)]) }
                    ifc := { allFieldNames := fns
                             tables := ifs.map fun f =>
                               (f, [(i1.get f, [i1])]) }
                    allL := [i1] } :=
    ((Except.ok.injEq _ _).mp h1).symm
  subst hc1
  have hmem : (u, i2.get u, i1) ∈ ufcCollisions
      ({ allFieldNames := fns
         tables := ufs.map fun f => (f, [(i1.get f, i1)]) } :
        UniqueFieldCache) i2 := by
    unfold ufcCollisions
    refine List.mem_filterMap.mpr ⟨(u, [(i1.get u, i1)]), ?_, ?_⟩
    · exact List.mem_map.mpr ⟨u, hu, rfl⟩
    · simp [lookupV, List.lookup, heq]
  refine ⟨rfl, _, herr _ i2 (List.ne_nil_of_mem hmem), List.ne_nil_of_mem hmem,
    hmem⟩

/-- Closed witness for C2: a one-unique-field schema, two instances
colliding on `a`. -/
theorem c2_collision_aggregates_and_mutates_nothing_witness :
    (mcAddModel (mkModelCache ["a"] ["a"] []) instW0 = .ok cacheW) ∧
    ∃ errs, mcAddModel cacheW instW1 = .error (.duplicateUnique errs) ∧
      errs ≠ [] ∧ ("a", (5 : Value), instW0) ∈ errs := by
  have h := c2_collision_aggregates_and_mutates_nothing.2 ["a"] ["a"] []
    "a" instW0 instW1 cacheW (by decide) (by decide) rfl
  exact ⟨rfl, h.2⟩

/-- C10: registering an instance that is already registered (every
unique-field table maps its value to the very instance) fails with a
duplicate-unique-value error aggregating every unique field — the
`existing is not None` check does not exempt the pre-existing entry
being the same object — and, the error being raised before the first
write, every table and the live set are left unchanged. -/
theorem c10_readd_registered_fails (c : ModelCache) (obj : Inst)
    (hne : c.ufc.tables ≠ [])
    (hreg : ∀ p ∈ c.ufc.tables, lookupV p.2 (obj.get p.1) = some obj) :
    mcAddModel c obj = .error (.duplicateUnique
      (c.ufc.tables.map fun p => (p.1, obj.get p.1, obj))) := by
  have hall : ∀ (l : List (String × List (Value × Inst))),
      (∀ p ∈ l, lookupV p.2 (obj.get p.1) = some obj) →
      (l.filterMap fun p =>
        match lookupV p.2 (obj.get p.1) with
        | some existing => some (p.1, obj.get p.1, existing)
        | none => none) = l.map fun p => (p.1, obj.get p.1, obj) := by
    intro l hl
    induction l with
    | nil => rfl
    | cons a t ih =>
        rw [List.filterMap_cons, hl a (List.mem_cons_self a t)]
        simpa using ih fun p hp => hl p (List.mem_cons_of_mem a hp)
  have hcol : ufcCollisions c.ufc obj =
      c.ufc.tables.map fun p => (p.1, obj.get p.1, obj) := hall _ hreg
  have hnil : (c.ufc.tables.map fun p => (p.1, obj.get p.1, obj)) ≠ [] := by
    intro h
    exact hne (List.map_eq_nil_iff.mp h)
  unfold mcAddModel ufcAddModel
  rw [hcol, if_neg (by simpa [List.isEmpty_iff] using hnil)]

/-- Closed witness for C10: re-adding the sole registered instance. -/
theorem c10_readd_registered_fails_witness :
    mcAddModel cacheW instW0 =
      .error (.duplicateUnique [("a", 5, instW0)]) := by
  exact c10_readd_registered_fails cacheW instW0 (by decide) (by decide)

/-- A validate-and-store step never raises a missing-fields error (its
only failure is an `InvalidTypeError`). -/
theorem setattrE_ne_missingFields (conforms : Ty → Value → Bool)
    (f : FieldInfo) (n : String) (v : Value) (st : Store)
    (ns : List String) :
    setattrE conforms f n v st ≠ .error (.missingFields ns) := by
  unfold setattrE
  cases validateValueType conforms f v <;> simp

/-- A phase built from steps that never raise missing-fields never
raises missing-fields. -/
theorem phaseFold_ne_missingFields
    (step : Store → String × FieldInfo → Except InitErr Store)
    (h : ∀ st nf ns, step st nf ≠ .error (.missingFields ns)) :
    ∀ (l : List (String × FieldInfo)) (st : Store) (ns : List String),
      phaseFold step l st ≠ .error (.missingFields ns) := by
  intro l
  induction l with
  | nil => intro st ns; simp [phaseFold]
  | cons nf rest ih =>
      intro st ns
      unfold phaseFold
      cases hs : step st nf with
      | error e =>
          intro hcontr
          have : e = .missingFields ns := by
            simpa using hcontr
          exact h st nf ns (this ▸ hs)
      | ok st' => exact ih st' ns

/-- C5: in `__init_defaults__`, a non-shared field not supplied as a
keyword and having neither a setter method nor a `default_factory` nor a
static default aborts construction with one missing-fields error naming
all such fields at once; when no field is missing, the fill proceeds as
the composition of three phases — static defaults first, then default
factories, then setter-derived values — each assignment going through
`setattrE`, the same validate-and-store contract keyword assignment
uses, and no missing-fields error can arise. -/
theorem c5_missing_check_then_priority_fill
    (conforms : Ty → Value → Bool) (callFactory : Value → Value)
    (callSetter : Value → Store → Value) (sch : Schema)
    (exclude : List String) (st0 : Store) :
    (noSourceFields sch exclude ≠ [] →
      modelInitDefaults conforms callFactory callSetter sch exclude st0 =
        .error (.missingFields ((noSourceFields sch exclude).map Prod.fst))) ∧
    (noSourceFields sch exclude = [] →
      (modelInitDefaults conforms callFactory callSetter sch exclude st0 =
        (match phaseFold (defaultStep conforms) (withDefaultsOf sch exclude)
            st0 with
         | .error e => .error e
         | .ok st1 =>
            match phaseFold (factoryStep conforms callFactory)
                (withFactoriesOf sch exclude) st1 with
            | .error e => .error e
            | .ok st2 =>
                phaseFold (setterStep conforms callSetter sch)
                  (withSettersOf sch exclude) st2)) ∧
      ∀ ns, modelInitDefaults conforms callFactory callSetter sch exclude
          st0 ≠ .error (.missingFields ns)) := by
  constructor
  · intro h
    unfold modelInitDefaults
    rw [if_pos (by simpa [List.isEmpty_iff] using h)]
  · intro h
    have hshape :
        modelInitDefaults conforms callFactory callSetter sch exclude st0 =
          (match phaseFold (defaultStep conforms) (withDefaultsOf sch exclude)
              st0 with
           | .error e => .error e
           | .ok st1 =>
              match phaseFold (factoryStep conforms callFactory)
                  (withFactoriesOf sch exclude) st1 with
              | .error e => .error e
              | .ok st2 =>
                  phaseFold (setterStep conforms callSetter sch)
                    (withSettersOf sch exclude) st2) := by
      unfold modelInitDefaults
      rw [if_neg (by simp [List.isEmpty_iff, h])]
    refine ⟨hshape, ?_⟩
    intro ns hcontr
    rw [hshape] at hcontr
    have hd1 : ∀ st nf ns', defaultStep conforms st nf ≠
        .error (.missingFields ns') := by
      intro st nf ns'
      exact setattrE_ne_missingFields conforms nf.2 nf.1 _ st ns'
    have hf1 : ∀ st nf ns', factoryStep conforms callFactory st nf ≠
        .error (.missingFields ns') := by
      intro st nf ns'
      exact setattrE_ne_missingFields conforms nf.2 nf.1 _ st ns'
    have hs1 : ∀ st nf ns', setterStep conforms callSetter sch st nf ≠
        .error (.missingFields ns') := by
      intro st nf ns'
      exact setattrE_ne_missingFields conforms nf.2 nf.1 _ st ns'
    cases hd : phaseFold (defaultStep conforms)
        (withDefaultsOf sch exclude) st0 with
    | error e =>
        rw [hd] at hcontr
        simp [Except.bind] at hcontr
        exact phaseFold_ne_missingFields _ hd1 _ _ _ (hcontr ▸ hd)
    | ok st1 =>
        rw [hd] at hcontr
        simp [Except.bind] at hcontr
        cases hf : phaseFold (factoryStep conforms callFactory)
            (withFactoriesOf sch exclude) st1 with
        | error e =>
            rw [hf] at hcontr
            simp at hcontr
            exact phaseFold_ne_missingFields _ hf1 _ _ _ (hcontr ▸ hf)
        | ok st2 =>
            rw [hf] at hcontr
            simp at hcontr
            exact phaseFold_ne_missingFields _ hs1 _ _ _ hcontr

/-- A schema whose sole field has no default source at all. -/
def fieldNoSource : FieldInfo :=
  { boundSameObj with name := some "m", default := none }

/-- The schema holding only `fieldNoSource` under `m`. -/
def schemaMissing : Schema :=
  { fieldsMap := [("m", fieldNoSource)], setters := [] }

/-- Closed witness for C5: the missing branch on `schemaMissing` and the
fill branch on `schemaSameObj`. -/
theorem c5_missing_check_then_priority_fill_witness :
    modelInitDefaults (fun _ _ => true) id (fun s _ => s) schemaMissing []
        [] = .error (.missingFields ["m"]) ∧
    modelInitDefaults (fun _ _ => true) id (fun s _ => s) schemaSameObj []
        [] = .ok [("x", 7)] := by
  constructor
  · exact (c5_missing_check_then_priority_fill (fun _ _ => true) id
      (fun s _ => s) schemaMissing [] []).1 (by decide)
  · have h := ((c5_missing_check_then_priority_fill (fun _ _ => true) id
      (fun s _ => s) schemaSameObj [] []).2 (by decide)).1
    rw [h]
    rfl

/-- Dict assignment then lookup at the same key. -/
theorem lookup_storeSet_self (st : Store) (n : String) (v : Value) :
    List.lookup n (storeSet st n v) = some v := by
  induction st with
  | nil => simp [storeSet, List.lookup]
  | cons p rest ih =>
      obtain ⟨m, w⟩ := p
      by_cases h : m = n
      · subst h; simp [storeSet, List.lookup]
      · have hb : (n == m) = false := beq_eq_false_iff_ne.mpr (Ne.symm h)
        simp [storeSet, h, List.lookup, hb, ih]

/-- Dict assignment preserves lookups at other keys. -/
theorem lookup_storeSet_ne (st : Store) (m n : String) (v : Value)
    (h : m ≠ n) :
    List.lookup n (storeSet st m v) = List.lookup n st := by
  have hb : (n == m) = false := beq_eq_false_iff_ne.mpr (Ne.symm h)
  induction st with
  | nil => simp [storeSet, List.lookup, hb]
  | cons p rest ih =>
      obtain ⟨k, w⟩ := p
      by_cases hk : k = m
      · subst hk; simp [storeSet, List.lookup, hb]
      · by_cases hkn : n = k
        · subst hkn
          simp [storeSet, hk, List.lookup]
        · have hb2 : (n == k) = false := beq_eq_false_iff_ne.mpr hkn
          simp [storeSet, hk, List.lookup, hb2, ih]

/-- Dict assignment can only add keys. -/
theorem lookup_storeSet_isSome (st : Store) (m n : String) (v : Value)
    (h : (List.lookup n st).isSome) :
    (List.lookup n (storeSet st m v)).isSome := by
  by_cases hmn : m = n
  · subst hmn; simp [lookup_storeSet_self]
  · rwa [lookup_storeSet_ne st m n v hmn]

/-- A successful validate-and-store is exactly a dict assignment. -/
theorem setattrE_ok (conforms : Ty → Value → Bool) (f : FieldInfo)
    (n : String) (v : Value) (st st' : Store)
    (h : setattrE conforms f n v st = .ok st') :
    st' = storeSet st n v := by
  unfold setattrE at h
  cases hv : validateValueType conforms f v with
  | none => rw [hv] at h; simpa using h.symm
  | some k => rw [hv] at h; simp at h

/-- The aggregated error list of the keyword loop never shrinks: it can
only end empty if it started empty. -/
theorem kwargsLoop_errs_nil (conforms : Ty → Value → Bool) (sch : Schema) :
    ∀ (l : List (String × Value)) (st : Store)
      (errs : List (String × InitErrK)),
      (kwargsLoop conforms sch st errs l).2 = [] → errs = [] := by
  intro l
  induction l with
  | nil => intro st errs h; simpa [kwargsLoop] using h
  | cons p rest ih =>
      intro st errs h
      obtain ⟨kw, v⟩ := p
      unfold kwargsLoop at h
      cases hf : List.lookup kw sch.fieldsMap with
      | none =>
          simp only [hf] at h
          have := ih _ _ h
          simp at this
      | some f =>
          simp only [hf] at h
          by_cases hcf : f.classfield = true
          · rw [if_pos hcf] at h
            have := ih _ _ h
            simp at this
          · rw [if_neg hcf] at h
            by_cases hin : f.init = true
            · rw [if_neg (not_not_intro hin)] at h
              cases hv : validateValueType conforms f v with
              | none => simp only [hv] at h; exact ih _ _ h
              | some k =>
                  simp only [hv] at h
                  have := ih _ _ h
                  simp at this
            · rw [if_pos hin] at h
              have := ih _ _ h
              simp at this

/-- When the keyword loop ends with no errors, every keyword named a
non-shared, init-enabled field whose value validated, and the resulting
store is the fold of the dict assignments. -/
theorem kwargsLoop_success (conforms : Ty → Value → Bool) (sch : Schema) :
    ∀ (l : List (String × Value)) (st : Store),
      (kwargsLoop conforms sch st [] l).2 = [] →
      (∀ n v, (n, v) ∈ l → ∃ f, List.lookup n sch.fieldsMap = some f ∧
          f.classfield = false ∧ f.init = true ∧
          validateValueType conforms f v = none) ∧
      (kwargsLoop conforms sch st [] l).1 =
        l.foldl (fun acc p => storeSet acc p.1 p.2) st := by
  intro l
  induction l with
  | nil => intro st _; exact ⟨by simp, rfl⟩
  | cons p rest ih =>
      intro st h
      obtain ⟨kw, v⟩ := p
      have hshape := h
      unfold kwargsLoop at hshape
      cases hf : List.lookup kw sch.fieldsMap with
      | none =>
          simp only [hf] at hshape
          exact absurd (kwargsLoop_errs_nil conforms sch rest st _ hshape)
            (by simp)
      | some f =>
          simp only [hf] at hshape
          by_cases hcf : f.classfield = true
          · rw [if_pos hcf] at hshape
            exact absurd (kwargsLoop_errs_nil conforms sch rest st _ hshape)
              (by simp)
          · rw [if_neg hcf] at hshape
            by_cases hin : f.init = true
            · rw [if_neg (not_not_intro hin)] at hshape
              cases hv : validateValueType conforms f v with
              | none =>
                  simp only [hv] at hshape
                  have hstep : kwargsLoop conforms sch st []
                      ((kw, v) :: rest) =
                      kwargsLoop conforms sch (storeSet st kw v) [] rest := by
                    simp only [kwargsLoop]
                    simp only [hf]
                    rw [if_neg hcf, if_neg (not_not_intro hin)]
                    simp only [hv]
                  obtain ⟨hall, hst⟩ := ih (storeSet st kw v) hshape
                  refine ⟨?_, ?_⟩
                  · intro n w hmem
                    rcases List.mem_cons.mp hmem with heq | htl
                    · obtain ⟨h1, h2⟩ := Prod.mk.injEq .. ▸ heq
                      refine ⟨f, ?_, Bool.not_eq_true _ ▸ hcf, hin, ?_⟩
                      · rw [h1]; exact hf
                      · rw [h2]; exact hv
                    · exact hall n w htl
                  · rw [hstep, hst]
                    simp
              | some k =>
                  simp only [hv] at hshape
                  exact absurd (kwargsLoop_errs_nil conforms sch rest _ _
                    hshape) (by simp)
            · rw [if_pos hin] at hshape
              exact absurd (kwargsLoop_errs_nil conforms sch rest st _ hshape)
                (by simp)

/-- Folding dict assignments over keys not containing `n` preserves the
lookup at `n`. -/
theorem lookup_foldl_storeSet_not_mem :
    ∀ (l : List (String × Value)) (st : Store) (n : String),
      n ∉ l.map Prod.fst →
      List.lookup n (l.foldl (fun acc p => storeSet acc p.1 p.2) st) =
        List.lookup n st := by
  intro l
  induction l with
  | nil => intro st n _; rfl
  | cons p rest ih =>
      intro st n hn
      simp only [List.map_cons, List.mem_cons] at hn
      push_neg at hn
      rw [List.foldl_cons, ih _ n hn.2,
        lookup_storeSet_ne st p.1 n p.2 (fun h => hn.1 h.symm)]

/-- Folding dict assignments with nodup keys stores each pair. -/
theorem lookup_foldl_storeSet :
    ∀ (l : List (String × Value)) (st : Store) (n : String) (v : Value),
      (l.map Prod.fst).Nodup → (n, v) ∈ l →
      List.lookup n (l.foldl (fun acc p => storeSet acc p.1 p.2) st) =
        some v := by
  intro l
  induction l with
  | nil => intro st n v _ h; simp at h
  | cons p rest ih =>
      intro st n v hnd hmem
      obtain ⟨m, w⟩ := p
      simp only [List.map_cons, List.nodup_cons] at hnd
      rcases List.mem_cons.mp hmem with heq | htl
      · obtain ⟨h1, h2⟩ := Prod.mk.injEq .. ▸ heq
        subst h1; subst h2
        rw [List.foldl_cons,
          lookup_foldl_storeSet_not_mem rest (storeSet st n v) n hnd.1,
          lookup_storeSet_self]
      · rw [List.foldl_cons]
        exact ih _ n v hnd.2 htl

/-- A phase whose steps are dict assignments leaves other keys alone. -/
theorem phaseFold_ok_lookup_ne
    (step : Store → String × FieldInfo → Except InitErr Store)
    (hstep : ∀ st nf st', step st nf = .ok st' →
      ∃ v, st' = storeSet st nf.1 v) :
    ∀ (l : List (String × FieldInfo)) (st st' : Store),
      phaseFold step l st = .ok st' →
      ∀ n, (∀ nf ∈ l, nf.1 ≠ n) →
        List.lookup n st' = List.lookup n st := by
  intro l
  induction l with
  | nil => intro st st' h n _; simpa [phaseFold] using (by simpa [phaseFold] using h : st = st') ▸ rfl
  | cons nf rest ih =>
      intro st st' h n hne
      unfold phaseFold at h
      cases hs : step st nf with
      | error e => rw [hs] at h; simp at h
      | ok st1 =>
          rw [hs] at h
          obtain ⟨v, hv⟩ := hstep st nf st1 hs
          have h1 := ih st1 st' h n fun g hg => hne g (List.mem_cons_of_mem nf hg)
          rw [h1, hv, lookup_storeSet_ne st nf.1 n v
            (hne nf (List.mem_cons_self nf rest))]

/-- A phase whose steps are dict assignments never removes keys. -/
theorem phaseFold_ok_isSome_mono
    (step : Store → String × FieldInfo → Except InitErr Store)
    (hstep : ∀ st nf st', step st nf = .ok st' →
      ∃ v, st' = storeSet st nf.1 v) :
    ∀ (l : List (String × FieldInfo)) (st st' : Store),
      phaseFold step l st = .ok st' →
      ∀ n, (List.lookup n st).isSome → (List.lookup n st').isSome := by
  intro l
  induction l with
  | nil =>
      intro st st' h n hsome
      have : st = st' := by simpa [phaseFold] using h
      exact this ▸ hsome
  | cons nf rest ih =>
      intro st st' h n hsome
      unfold phaseFold at h
      cases hs : step st nf with
      | error e => rw [hs] at h; simp at h
      | ok st1 =>
          rw [hs] at h
          obtain ⟨v, hv⟩ := hstep st nf st1 hs
          exact ih st1 st' h n (hv ▸ lookup_storeSet_isSome st nf.1 n v hsome)

/-- A successful phase writes every field of its list. -/
theorem phaseFold_ok_writes
    (step : Store → String × FieldInfo → Except InitErr Store)
    (hstep : ∀ st nf st', step st nf = .ok st' →
      ∃ v, st' = storeSet st nf.1 v) :
    ∀ (l : List (String × FieldInfo)) (st st' : Store),
      phaseFold step l st = .ok st' →
      ∀ nf ∈ l, (List.lookup nf.1 st').isSome := by
  intro l
  induction l with
  | nil => intro st st' _ nf h; simp at h
  | cons g rest ih =>
      intro st st' h nf hmem
      unfold phaseFold at h
      cases hs : step st g with
      | error e => rw [hs] at h; simp at h
      | ok st1 =>
          rw [hs] at h
          obtain ⟨v, hv⟩ := hstep st g st1 hs
          rcases List.mem_cons.mp hmem with heq | htl
          · subst heq
            refine phaseFold_ok_isSome_mono step hstep rest st1 st' h nf.1 ?_
            rw [hv, lookup_storeSet_self]
            rfl
          · exact ih st1 st' h nf htl

/-- The three concrete phase steps are dict assignments on success. -/
theorem defaultStep_shape (conforms : Ty → Value → Bool) :
    ∀ (st : Store) (nf : String × FieldInfo) (st' : Store),
      defaultStep conforms st nf = .ok st' →
      ∃ v, st' = storeSet st nf.1 v :=
  fun st nf st' h => ⟨_, setattrE_ok conforms nf.2 nf.1 _ st st' h⟩

/-- Factory-phase steps are dict assignments on success. -/
theorem factoryStep_shape (conforms : Ty → Value → Bool)
    (callFactory : Value → Value) :
    ∀ (st : Store) (nf : String × FieldInfo) (st' : Store),
      factoryStep conforms callFactory st nf = .ok st' →
      ∃ v, st' = storeSet st nf.1 v :=
  fun st nf st' h => ⟨_, setattrE_ok conforms nf.2 nf.1 _ st st' h⟩

/-- Setter-phase steps are dict assignments on success. -/
theorem setterStep_shape (conforms : Ty → Value → Bool)
    (callSetter : Value → Store → Value) (sch : Schema) :
    ∀ (st : Store) (nf : String × FieldInfo) (st' : Store),
      setterStep conforms callSetter sch st nf = .ok st' →
      ∃ v, st' = storeSet st nf.1 v :=
  fun st nf st' h => ⟨_, setattrE_ok conforms nf.2 nf.1 _ st st' h⟩

/-- `Model.dict()` lookup reduces to the field-map lookup. -/
theorem lookup_map_entry (st : Store) (n : String) :
    ∀ (l : List (String × FieldInfo)),
      List.lookup n (l.map fun nf =>
        (nf.1, if nf.2.classfield then nf.2.default.getD 0
               else (List.lookup nf.1 st).getD 0)) =
      (List.lookup n l).map fun f =>
        if f.classfield then f.default.getD 0
        else (List.lookup n st).getD 0 := by
  intro l
  induction l with
  | nil => rfl
  | cons nf rest ih =>
      obtain ⟨m, f⟩ := nf
      by_cases h : n = m
      · subst h; simp [List.lookup]
      · have hb : (n == m) = false := beq_eq_false_iff_ne.mpr h
        simp [List.lookup, hb, ih]

/-- Key-nodup association lists look up their members. -/
theorem lookup_of_mem_nodup :
    ∀ (l : List (String × FieldInfo)), (l.map Prod.fst).Nodup →
      ∀ n f, (n, f) ∈ l → List.lookup n l = some f := by
  intro l
  induction l with
  | nil => intro _ n f h; simp at h
  | cons p rest ih =>
      intro hnd n f hmem
      obtain ⟨m, g⟩ := p
      simp only [List.map_cons, List.nodup_cons] at hnd
      rcases List.mem_cons.mp hmem with heq | htl
      · obtain ⟨h1, h2⟩ := Prod.mk.injEq .. ▸ heq
        subst h1; subst h2
        simp [List.lookup]
      · have hne : n ≠ m := by
          rintro rfl
          exact hnd.1 (List.mem_map.mpr ⟨(n, f), htl, rfl⟩)
        have hb : (n == m) = false := beq_eq_false_iff_ne.mpr hne
        simp only [List.lookup, hb]
        exact ih hnd.2 n f htl

/-- C8: round-trip.  For every instance successfully constructed from
keyword values plus schema defaults for the remaining fields, `dict()`
has exactly one entry per field of the schema, and its value projection
is exactly the union of the supplied keyword values and the
default-filled values: a supplied field reads back as its keyword value
(the default phases never touch supplied names), every unsupplied
non-shared field reads back as the value the default machinery stored,
and a shared field reads back as its schema-level default. -/
theorem c8_dict_round_trip (conforms : Ty → Value → Bool)
    (callFactory : Value → Value) (callSetter : Value → Store → Value)
    (sch : Schema) (kwargs : List (String × Value)) (st : Store)
    (hndF : (sch.fieldsMap.map Prod.fst).Nodup)
    (hndK : (kwargs.map Prod.fst).Nodup)
    (hok : modelInit conforms callFactory callSetter sch kwargs = .ok st) :
    ((modelDict sch st).map Prod.fst = sch.fieldsMap.map Prod.fst) ∧
    (∀ n v, (n, v) ∈ kwargs → List.lookup n (modelDict sch st) = some v) ∧
    (∀ n f, (n, f) ∈ sch.fieldsMap → n ∉ kwargs.map Prod.fst →
        f.classfield = false →
        ∃ w, List.lookup n st = some w ∧
          List.lookup n (modelDict sch st) = some w) ∧
    (∀ n f, (n, f) ∈ sch.fieldsMap → f.classfield = true →
        List.lookup n (modelDict sch st) = some (f.default.getD 0)) := by
  unfold modelInit at hok
  cases hk : modelInitKwargs conforms sch kwargs with
  | error e => simp only [hk] at hok; exact absurd hok (by simp)
  | ok st1 =>
  simp only [hk] at hok
  unfold modelInitKwargs at hk
  rcases hkl : kwargsLoop conforms sch [] [] kwargs with ⟨stk, errs⟩
  simp only [hkl] at hk
  by_cases herr : errs = []
  · subst herr
    simp only [List.isEmpty_nil, if_true] at hk
    have hstk : stk = st1 := by simpa using hk
    subst hstk
    have hsucc := kwargsLoop_success conforms sch kwargs []
      (by rw [hkl])
    obtain ⟨hall, hfold⟩ := hsucc
    rw [hkl] at hfold
    have hst1 : stk = kwargs.foldl (fun acc p => storeSet acc p.1 p.2) [] :=
      hfold
    unfold modelInitDefaults at hok
    by_cases hm : (noSourceFields sch (kwargs.map Prod.fst)).isEmpty
    · rw [if_neg (not_not_intro hm)] at hok
      have hmiss : noSourceFields sch (kwargs.map Prod.fst) = [] :=
        List.isEmpty_iff.mp hm
      cases hd : phaseFold (defaultStep conforms)
          (withDefaultsOf sch (kwargs.map Prod.fst)) stk with
      | error e => simp only [hd] at hok; exact absurd hok (by simp)
      | ok stA =>
      simp only [hd] at hok
      cases hf2 : phaseFold (factoryStep conforms callFactory)
          (withFactoriesOf sch (kwargs.map Prod.fst)) stA with
      | error e => simp only [hf2] at hok; exact absurd hok (by simp)
      | ok stB =>
      simp only [hf2] at hok
      have hinitMem : ∀ nf, nf ∈ initFieldsOf sch (kwargs.map Prod.fst) →
          nf ∈ sch.fieldsMap ∧ nf.1 ∉ kwargs.map Prod.fst ∧
            ¬ nf.2.classfield = true := by
        intro nf hnf
        unfold initFieldsOf at hnf
        rw [List.mem_filter] at hnf
        refine ⟨hnf.1, ?_, ?_⟩
        · have := of_decide_eq_true hnf.2
          intro hcontr
          exact this.1 (List.elem_iff.mpr hcontr)
        · exact (of_decide_eq_true hnf.2).2
      have hinitMem' : ∀ nf, nf ∈ sch.fieldsMap →
          nf.1 ∉ kwargs.map Prod.fst → ¬ nf.2.classfield = true →
          nf ∈ initFieldsOf sch (kwargs.map Prod.fst) := by
        intro nf h1 h2 h3
        unfold initFieldsOf
        rw [List.mem_filter]
        refine ⟨h1, decide_eq_true ?_⟩
        exact ⟨fun hc => h2 (List.elem_iff.mp hc), h3⟩
      have hdictEq : ∀ n, List.lookup n (modelDict sch st) =
          (List.lookup n sch.fieldsMap).map fun f =>
            if f.classfield then f.default.getD 0
            else (List.lookup n st).getD 0 :=
        fun n => lookup_map_entry st n sch.fieldsMap
      have hsubD : ∀ nf, nf ∈ withDefaultsOf sch (kwargs.map Prod.fst) →
          nf ∈ initFieldsOf sch (kwargs.map Prod.fst) := by
        intro nf h
        unfold withDefaultsOf at h
        exact List.mem_of_mem_filter h
      have hsubF : ∀ nf, nf ∈ withFactoriesOf sch (kwargs.map Prod.fst) →
          nf ∈ initFieldsOf sch (kwargs.map Prod.fst) := by
        intro nf h
        unfold withFactoriesOf at h
        exact List.mem_of_mem_filter h
      have hsubS : ∀ nf, nf ∈ withSettersOf sch (kwargs.map Prod.fst) →
          nf ∈ initFieldsOf sch (kwargs.map Prod.fst) := by
        intro nf h
        unfold withSettersOf at h
        exact List.mem_of_mem_filter h
      have hpreserve : ∀ n, n ∈ kwargs.map Prod.fst →
          List.lookup n st = List.lookup n stk := by
        intro n hnK
        have hgen : ∀ (l : List (String × FieldInfo)), (∀ nf, nf ∈ l →
            nf ∈ initFieldsOf sch (kwargs.map Prod.fst)) →
            ∀ nf, nf ∈ l → nf.1 ≠ n := by
          intro l hl nf hnf hcontr
          exact (hinitMem nf (hl nf hnf)).2.1 (hcontr ▸ hnK)
        have h3 := phaseFold_ok_lookup_ne _
          (setterStep_shape conforms callSetter sch) _ _ _ hok n
          (hgen _ hsubS)
        have h2 := phaseFold_ok_lookup_ne _
          (factoryStep_shape conforms callFactory) _ _ _ hf2 n
          (hgen _ hsubF)
        have h1 := phaseFold_ok_lookup_ne _
          (defaultStep_shape conforms) _ _ _ hd n
          (hgen _ hsubD)
        rw [h3, h2, h1]
      refine ⟨?_, ?_, ?_, ?_⟩
      · simp [modelDict, List.map_map]
      · intro n v hmem
        obtain ⟨f, hlf, hcf, _, _⟩ := hall n v hmem
        have hnK : n ∈ kwargs.map Prod.fst :=
          List.mem_map.mpr ⟨(n, v), hmem, rfl⟩
        have hv1 : List.lookup n stk = some v := by
          rw [hst1]
          exact lookup_foldl_storeSet kwargs [] n v hndK hmem
        have hvst : List.lookup n st = some v := by
          rw [hpreserve n hnK, hv1]
        rw [hdictEq n, hlf]
        simp [hcf, hvst]
      · intro n f hmemF hnotK hcf
        have hlf : List.lookup n sch.fieldsMap = some f :=
          lookup_of_mem_nodup sch.fieldsMap hndF n f hmemF
        have hinit : (n, f) ∈ initFieldsOf sch (kwargs.map Prod.fst) :=
          hinitMem' (n, f) hmemF hnotK (by simp [hcf])
        have hsource : hasSetter sch n = true ∨
            f.defaultFactory.isSome = true ∨ f.default.isSome = true := by
          have hnone := List.filter_eq_nil_iff.mp hmiss (n, f) hinit
          by_contra hcontr
          push_neg at hcontr
          apply hnone
          refine decide_eq_true ?_
          refine ⟨by simpa using hcontr.1, ?_, ?_⟩
          · have hn2 : f.defaultFactory = none :=
              Option.not_isSome_iff_eq_none.mp (by simpa using hcontr.2.1)
            simp [hn2]
          · have hn3 : f.default = none :=
              Option.not_isSome_iff_eq_none.mp (by simpa using hcontr.2.2)
            simp [hn3]
        have hsomeSt : (List.lookup n st).isSome := by
          rcases hsource with hs | hfa | hdef
          · have hmemS : (n, f) ∈ withSettersOf sch (kwargs.map Prod.fst) := by
              unfold withSettersOf
              rw [List.mem_filter]
              exact ⟨hinit, by simpa using hs⟩
            exact phaseFold_ok_writes _
              (setterStep_shape conforms callSetter sch) _ _ _ hok _ hmemS
          · have hmemS : (n, f) ∈ withFactoriesOf sch (kwargs.map Prod.fst) := by
              unfold withFactoriesOf
              rw [List.mem_filter]
              exact ⟨hinit, by simpa using hfa⟩
            have hB := phaseFold_ok_writes _
              (factoryStep_shape conforms callFactory) _ _ _ hf2 _ hmemS
            exact phaseFold_ok_isSome_mono _
              (setterStep_shape conforms callSetter sch) _ _ _ hok n hB
          · have hmemS : (n, f) ∈ withDefaultsOf sch (kwargs.map Prod.fst) := by
              unfold withDefaultsOf
              rw [List.mem_filter]
              exact ⟨hinit, by simpa using hdef⟩
            have hA := phaseFold_ok_writes _
              (defaultStep_shape conforms) _ _ _ hd _ hmemS
            have hB := phaseFold_ok_isSome_mono _
              (factoryStep_shape conforms callFactory) _ _ _ hf2 n hA
            exact phaseFold_ok_isSome_mono _
              (setterStep_shape conforms callSetter sch) _ _ _ hok n hB
        obtain ⟨w, hw⟩ := Option.isSome_iff_exists.mp hsomeSt
        refine ⟨w, hw, ?_⟩
        rw [hdictEq n, hlf]
        simp [hcf, hw]
      · intro n f hmemF hcf
        have hlf : List.lookup n sch.fieldsMap = some f :=
          lookup_of_mem_nodup sch.fieldsMap hndF n f hmemF
        rw [hdictEq n, hlf]
        simp [hcf]
    · rw [if_pos hm] at hok
      exact absurd hok (by simp)
  · have : ¬ errs.isEmpty = true := by
      simpa [List.isEmpty_iff] using herr
    rw [if_neg this] at hk
    exact absurd hk (by simp)

/-- Closed witness for C8: schema with a supplied field `a` and a
defaulted field `b`. -/
theorem c8_dict_round_trip_witness :
    modelInit (fun _ _ => true) id (fun s _ => s) schemaRT [("a", 1)] =
      .ok [("a", 1), ("b", 5)] ∧
    List.lookup "a" (modelDict schemaRT [("a", 1), ("b", 5)]) = some 1 ∧
    List.lookup "b" (modelDict schemaRT [("a", 1), ("b", 5)]) = some 5 := by
  refine ⟨rfl, ?_, ?_⟩
  · exact (c8_dict_round_trip (fun _ _ => true) id (fun s _ => s) schemaRT
      [("a", 1)] [("a", 1), ("b", 5)] (by decide) (by decide) rfl).2.1 "a" 1
      (by decide)
  · have h := (c8_dict_round_trip (fun _ _ => true) id (fun s _ => s)
      schemaRT [("a", 1)] [("a", 1), ("b", 5)] (by decide) (by decide)
      rfl).2.2.1 "b" fieldBdef (by decide) (by decide) (by decide)
    obtain ⟨w, hw1, hw2⟩ := h
    have hcomp : List.lookup "b" [("a", (1 : Value)), ("b", 5)] = some 5 := by
      decide
    have h5 : w = 5 :=
      (Option.some.injEq _ _).mp (hw1.symm.trans hcomp)
    subst h5
    exact hw2

/-- Two distinct members force length above one. -/
theorem two_mem_one_lt_length {α : Type} (l : List α) (a b : α)
    (ha : a ∈ l) (hb : b ∈ l) (hab : a ≠ b) : 1 < l.length := by
  match l with
  | [] => simp at ha
  | [x] =>
      have h1 : a = x := by simpa using ha
      have h2 : b = x := by simpa using hb
      exact absurd (h1.trans h2.symm) hab
  | x :: y :: rest => simp [List.length]

/-- When a setter exists and the field carries a default or a factory
that is a different object, the deduplicated source set has at least two
elements and `_validate_instance_field_defaults` raises. -/
theorem validateInstanceFieldDefaults_two (o : Owner) (name : String)
    (f : FieldInfo) (s : Value) (b : Bool) (d : Value)
    (hs : ownerSetter o name = some (s, b))
    (hd : (f.default = some d ∧ d ≠ s) ∨ (f.defaultFactory = some d ∧ d ≠ s)) :
    validateInstanceFieldDefaults o name f = .error (.multipleDefaults name) := by
  have hsmem : s ∈ distinctSources o name f := by
    unfold distinctSources
    rw [List.mem_dedup]
    simp [hs]
  have hdmem : d ∈ distinctSources o name f := by
    unfold distinctSources
    rw [List.mem_dedup]
    rcases hd with ⟨h1, _⟩ | ⟨h1, _⟩ <;> simp [h1]
  have hds : d ≠ s := by
    rcases hd with ⟨_, h2⟩ | ⟨_, h2⟩ <;> exact h2
  have hlen : 1 < (distinctSources o name f).length :=
    two_mem_one_lt_length _ d s hdmem hsmem hds
  unfold validateInstanceFieldDefaults
  rw [if_pos hlen]

/-- A classvar validation that succeeds ends in a successful
instance-field default validation. -/
theorem validateClassvar_ok (o : Owner) (name : String) (f : FieldInfo)
    (h : validateClassvarDefaultField o name f = .ok ()) :
    validateInstanceFieldDefaults o name f = .ok () := by
  unfold validateClassvarDefaultField at h
  split at h
  · simp at h
  · split at h
    · simp at h
    · split at h
      · simp at h
      · split at h
        · simp at h
        · split at h
          · simp at h
          · exact h

/-- C7 amended: supplying both `default` and `default_factory` fails at
`FieldInfo.__init__`; supplying `default` (or `default_factory`)
together with a matching `set_<name>` method fails at binding — UNLESS
the supplied object is the very same object as the setter method, in
which case the Python-set deduplication of
`_validate_instance_field_defaults` counts them once (see the
counterexample). -/
theorem c7_duplicate_default_sources_fail (cfg : FieldCfg)
    (callFn : Value → Value) (o : Owner) (name : String) (f : FieldInfo)
    (s : Value) (b : Bool) :
    (cfg.default.isSome → cfg.defaultFactory.isSome →
      ∃ e, fieldInfoInit cfg = .error e) ∧
    (ownerSetter o name = some (s, b) →
      (∀ d, f.default = some d → d ≠ s →
        ∃ e, bindField callFn o name f = .error e) ∧
      (∀ g, f.defaultFactory = some g → g ≠ s →
        ∃ e, bindField callFn o name f = .error e)) := by
  constructor
  · intro h1 h2
    unfold fieldInfoInit
    rw [if_pos h1, if_pos (by simpa using h2)]
    exact ⟨_, rfl⟩
  · intro hset
    have hbind : ∀ d, ((f.default = some d ∧ d ≠ s) ∨
        (f.defaultFactory = some d ∧ d ≠ s)) →
        ∃ e, bindField callFn o name f = .error e := by
      intro d hd
      unfold bindField
      by_cases h1 : f.ownerN.isSome
      · rw [if_pos h1]; exact ⟨_, rfl⟩
      · rw [if_neg h1]
        by_cases h2 : f.name.getD name ≠ name
        · rw [if_pos h2]; exact ⟨_, rfl⟩
        · rw [if_neg h2]
          cases hty : resolveTy f.ty (List.lookup name o.annots) name with
          | error e => exact ⟨e, rfl⟩
          | ok t =>
              dsimp only
              have hval : validateInstanceFieldDefaults o name
                  { f with ty := some t } = .error (.multipleDefaults name) := by
                refine validateInstanceFieldDefaults_two o name _ s b d hset ?_
                rcases hd with ⟨ha, hb2⟩ | ⟨ha, hb2⟩
                · exact Or.inl ⟨by simpa using ha, hb2⟩
                · exact Or.inr ⟨by simpa using ha, hb2⟩
              by_cases hcf : ({ f with ty := some t } : FieldInfo).classfield
              · rw [if_pos hcf]
                cases hv : validateClassvarDefaultField o name
                    { f with ty := some t } with
                | error e => exact ⟨e, rfl⟩
                | ok u =>
                    exact absurd (validateClassvar_ok o name _ hv)
                      (by simp [hval])
              · rw [if_neg hcf]
                rw [hval]
                exact ⟨_, rfl⟩
    constructor
    · intro d h1 h2
      exact hbind d (Or.inl ⟨h1, h2⟩)
    · intro g h1 h2
      exact hbind g (Or.inr ⟨h1, h2⟩)

/-- Closed witness for C7 (amended): `default` together with
`default_factory` is rejected at construction; `default = 3` together
with the distinct setter object `7` is rejected at binding. -/
theorem c7_duplicate_default_sources_fail_witness :
    (∃ e, fieldInfoInit
      { default := some 3, defaultFactory := some 4, ty := some 0 } =
        .error e) ∧
    (∃ e, bindField id ownerSameObj "x" fieldDistinctObj = .error e) := by
  constructor
  · exact (c7_duplicate_default_sources_fail
      { default := some 3, defaultFactory := some 4, ty := some 0 }
      id ownerSameObj "x" fieldDistinctObj 7 false).1 (by decide) (by decide)
  · exact ((c7_duplicate_default_sources_fail
      { default := some 3, defaultFactory := some 4, ty := some 0 }
      id ownerSameObj "x" fieldDistinctObj 7 false).2 (by decide)).1 3
      (by decide) (by decide)

/-- C7 counterexample: the claim that EVERY configuration supplying a
default together with a matching `set_<name>` method fails before any
instance can be built is FALSE when the default value is the very same
object as the setter method (`Field(default=set_x)` inside the class
body): `FieldInfo.__init__` accepts it, `__set_name__`'s deduplicated
source set `{setter, default} = {set_x}` has one element so binding
succeeds, and an instance is then built. -/
theorem c7_same_object_default_setter_counterexample :
    cfgSameObj.default = some 7 ∧
    ownerSetter ownerSameObj "x" = some (7, false) ∧
    fieldInfoInit cfgSameObj = .ok fieldSameObjInit ∧
    bindField id ownerSameObj "x" fieldSameObjInit = .ok boundSameObj ∧
    modelInit (fun _ _ => true) id (fun s _ => s) schemaSameObj [] =
      .ok [("x", 7)] := by
  exact ⟨rfl, rfl, rfl, rfl, rfl⟩

/-- C4 counterexample: two assigned `Field(primary_key=True)` descriptors
`a` and `b` (the idiomatic way to flag a primary key — neither carries an
explicit name before binding).  Construction fails as claimed, but the
error names `'Unnamed'` and `'b'`: `ModelFieldMap.__setitem__`
interpolates `self.pk.name`, and the first descriptor's name is still
unset when the second insert happens, so the error does NOT name both
field names `a` and `b`. -/
theorem c4_unnamed_pk_counterexample :
    fieldInfoInit { primaryKey := true, ty := some 0 } = .ok pkFieldNoName ∧
    namespaceCtorR [pkFieldNoName, pkFieldNoName]
        (some [("a", 0), ("b", 0)])
        [("a", .fieldI 0), ("b", .fieldI 1)] [] =
      .error (.multiplePk "Unnamed" "b") ∧
    ¬ MetaErr.multiplePk "Unnamed" "b" = .multiplePk "a" "b" ∧
    ¬ MetaErr.multiplePk "Unnamed" "b" = .multiplePk "b" "a" := by
  exact ⟨rfl, by decide, by decide, by decide⟩

/-- C6 counterexample: two parents both providing a non-shared field `f`
(defaults `1` and `2`), the child declaring only an annotated field `x`
(so the class namespace carries `__annotations__` and the inheritance
loop's write-back succeeds).  The merged map holds a copy of the FIRST
parent's descriptor only; the second parent's field is not merged, so
the claim's "each parent field whose name the child does not declare is
merged ... as an independent copy with identical configuration" fails
for parent `P2`.  Moreover, for a child declaring nothing at all the
loop merges nothing: it dies with `KeyError("__annotations__")` on the
first parent's copy. -/
theorem c6_parent_conflict_counterexample :
    namespaceCtorR [parentFieldA, parentFieldB] (some [("x", 0)]) []
        [[("f", 0)], [("f", 1)]] =
      .ok ([("x", 2), ("f", 3)],
        { entries := [("x", 2), ("f", 3)], pk := none },
        [parentFieldA, parentFieldB, mkAnnotField "x" 0,
          copyCfg parentFieldA]) ∧
    derefF [parentFieldA, parentFieldB, mkAnnotField "x" 0,
        copyCfg parentFieldA] 3 = copyCfg parentFieldA ∧
    (copyCfg parentFieldA).default = some 1 ∧
    parentFieldB.default = some 2 ∧
    ¬ (copyCfg parentFieldA).default = parentFieldB.default ∧
    namespaceCtorR [parentFieldA, parentFieldB] none []
        [[("f", 0)], [("f", 1)]] = .error .keyErrAnn := by
  exact ⟨by decide, rfl, rfl, rfl, by decide, by decide⟩

/-- Old references keep their value when the heap grows. -/
theorem derefF_append (store t : FieldStore) (r : Ref)
    (h : r < store.length) :
    derefF (store ++ t) r = derefF store r := by
  unfold derefF
  exact List.getD_append store t default r h

/-- A fresh allocation dereferences to the allocated descriptor. -/
theorem derefF_alloc (store : FieldStore) (f : FieldInfo) :
    derefF (store ++ [f]) store.length = f := by
  unfold derefF
  rw [List.getD_append_right store [f] default store.length (le_refl _)]
  simp

/-- String `==` is the decision procedure for equality. -/
theorem beq_eq_decide_str (n k : String) : (n == k) = decide (n = k) := by
  by_cases h : n = k
  · subst h; simp
  · simp [h, beq_eq_false_iff_ne.mpr h]

/-- `contains` distributes over append. -/
theorem contains_append (l1 l2 : List String) (n : String) :
    (l1 ++ l2).contains n = (l1.contains n || l2.contains n) := by
  induction l1 with
  | nil => simp
  | cons x rest ih =>
      cases hnx : (n == x) <;>
        simp [List.contains_cons, hnx, ih, Bool.or_assoc, beq_eq_decide_str]

/-- Membership in the name set of an upserted name-to-ref dict. -/
theorem mem_entUpsert_names (l : List (String × Ref)) (k : String) (r : Ref)
    (n : String) :
    (∃ x, (n, x) ∈ entUpsert l k r) ↔ (∃ x, (n, x) ∈ l) ∨ n = k := by
  induction l with
  | nil => simp [entUpsert]
  | cons p rest ih =>
      obtain ⟨k', r'⟩ := p
      by_cases h : k' = k
      · subst h
        unfold entUpsert
        rw [if_pos rfl]
        simp only [List.mem_cons]
        constructor
        · rintro ⟨x, hx | hx⟩
          · exact Or.inr (congrArg Prod.fst hx)
          · exact Or.inl ⟨x, Or.inr hx⟩
        · rintro (⟨x, hx | hx⟩ | he)
          · have hn : n = k' := congrArg Prod.fst hx
            exact ⟨r, Or.inl (by rw [hn])⟩
          · exact ⟨x, Or.inr hx⟩
          · exact ⟨r, Or.inl (by rw [he])⟩
      · simp only [entUpsert, if_neg h, List.mem_cons]
        constructor
        · rintro ⟨x, hx | hx⟩
          · exact Or.inl ⟨x, Or.inl hx⟩
          · rcases ih.mp ⟨x, hx⟩ with ⟨y, hy⟩ | he
            · exact Or.inl ⟨y, Or.inr hy⟩
            · exact Or.inr he
        · rintro (⟨x, hx | hx⟩ | he)
          · exact ⟨x, Or.inl hx⟩
          · obtain ⟨y, hy⟩ := ih.mpr (Or.inl ⟨x, hx⟩)
            exact ⟨y, Or.inr hy⟩
          · obtain ⟨y, hy⟩ := ih.mpr (Or.inr he)
            exact ⟨y, Or.inr hy⟩

/-- Name set of an upserted name-to-ref dict, `contains` form. -/
theorem contains_entUpsert (l : List (String × Ref)) (k : String) (r : Ref)
    (n : String) :
    ((entUpsert l k r).map Prod.fst).contains n =
      ((l.map Prod.fst).contains n || (n == k)) := by
  rw [Bool.eq_iff_iff]
  simp
  exact mem_entUpsert_names l k r n

/-- The same fact phrased on a field-map literal, for rewriting. -/
theorem contains_fmNames_mk (l : List (String × Ref)) (pk : Option Ref)
    (k : String) (r : Ref) (n : String) :
    (fmNames { entries := entUpsert l k r, pk := pk }).contains n =
      ((l.map Prod.fst).contains n || (n == k)) :=
  contains_entUpsert l k r n

/-- The primary-key mirror of the namespace loop only dereferences the
namespace's own references, so it is stable under heap growth. -/
theorem nsPkL_append (store t : FieldStore) :
    ∀ (l : List (String × NsVal)),
      (∀ n r, (n, NsVal.fieldI r) ∈ l → r < store.length) →
      nsPkL (store ++ t) l = nsPkL store l := by
  intro l
  induction l with
  | nil => intro _; rfl
  | cons p rest ih =>
      intro h
      obtain ⟨n, v⟩ := p
      have hrest : ∀ n r, (n, NsVal.fieldI r) ∈ rest → r < store.length :=
        fun n r hm => h n r (List.mem_cons_of_mem _ hm)
      by_cases hs : isSkipped n v
      · simp only [nsPkL, if_pos hs]
        exact ih hrest
      · cases v with
        | fieldI r =>
            have hr : r < store.length := h n r (List.mem_cons_self _ _)
            simp only [nsPkL, if_neg hs]
            rw [derefF_append store t r hr]
            by_cases hpk : (derefF store r).primaryKey
            · simp only [if_pos hpk, ih hrest]
            · simp only [if_neg hpk]
              exact ih hrest
        | plain pv =>
            simp only [nsPkL, if_neg hs]
            exact ih hrest
        | callable =>
            simp only [nsPkL, if_neg hs]
            exact ih hrest

/-- The annotation loop never errors, never sets a primary key (an
annotation-only descriptor is never primary-key flagged), and inserts
exactly the annotation-only names. -/
theorem annotLoop_spec (ns : List (String × NsVal)) :
    ∀ (annots : List (String × Ty)) (store : FieldStore) (m : FieldMap),
      ∃ m' t, annotLoop ns store m annots = .ok (m', store ++ t) ∧
        m'.pk = m.pk ∧
        ∀ n, (fmNames m').contains n =
          ((fmNames m).contains n ||
            (annotInsertNames ns annots).contains n) := by
  intro annots
  induction annots with
  | nil =>
      intro store m
      exact ⟨m, [], by simp [annotLoop], rfl, by simp [annotInsertNames]⟩
  | cons q rest ih =>
      intro store m
      obtain ⟨nm, ty⟩ := q
      by_cases hc : ¬ (nsNames ns).contains nm ∧ ¬ underscored nm
      · have hstep : annotLoop ns store m ((nm, ty) :: rest) =
            annotLoop ns (store ++ [mkAnnotField nm ty])
              { m with entries := entUpsert m.entries nm store.length }
              rest := by
          simp only [annotLoop, if_pos hc]
          dsimp [allocF]
          unfold fmSetItem
          rw [derefF_alloc]
          rw [if_neg (by simp [mkAnnotField])]
        obtain ⟨m', t', hrec, hpk, hnames⟩ :=
          ih (store ++ [mkAnnotField nm ty])
            { m with entries := entUpsert m.entries nm store.length }
        refine ⟨m', [mkAnnotField nm ty] ++ t', ?_, hpk, ?_⟩
        · rw [hstep, hrec, List.append_assoc]
        · intro n
          rw [hnames n]
          have h2 : annotInsertNames ns ((nm, ty) :: rest) =
              nm :: annotInsertNames ns rest := by
            have hnm : nm ∉ nsNames ns :=
              fun hmem => hc.1 (List.elem_iff.mpr hmem)
            have hu : underscored nm = false := by
              cases h : underscored nm
              · rfl
              · exact absurd h hc.2
            simp [annotInsertNames, List.filter_cons, hnm, hu]
          rw [h2, List.contains_cons]
          rw [contains_fmNames_mk, Bool.or_assoc]
          rfl
      · have hstep : annotLoop ns store m ((nm, ty) :: rest) =
            annotLoop ns store m rest := by
          simp only [annotLoop, if_neg hc]
        obtain ⟨m', t', hrec, hpk, hnames⟩ := ih store m
        refine ⟨m', t', by rw [hstep, hrec], hpk, ?_⟩
        intro n
        rw [hnames n]
        have h2 : annotInsertNames ns ((nm, ty) :: rest) =
            annotInsertNames ns rest := by
          unfold annotInsertNames
          rw [List.filter_cons, if_neg (by simpa using hc)]
        rw [h2]

/-- The namespace loop, started on a map that already holds a primary
key `p` displayed as `d`: with no further primary-key insert it
succeeds, keeping `p`; the first further primary-key insert raises the
multiple-primary-keys error naming `d` and the offending key. -/
theorem nsLoop_some (annots : List (String × Ty)) :
    ∀ (l : List (String × NsVal)) (store : FieldStore) (m : FieldMap)
      (p : Ref) (d : String),
      (∀ n r, (n, NsVal.fieldI r) ∈ l → r < store.length) →
      m.pk = some p → p < store.length →
      displayName (derefF store p) = d →
      (nsPkL store l = [] →
        ∃ m' t, nsLoop annots store m l = .ok (m', store ++ t) ∧
          m'.pk = some p ∧
          ∀ n, (fmNames m').contains n =
            ((fmNames m).contains n || (nsInsertNames l).contains n)) ∧
      (∀ k dk tl, nsPkL store l = (k, dk) :: tl →
        nsLoop annots store m l = .error (.multiplePk d k)) := by
  intro l
  induction l with
  | nil =>
      intro store m p d _ hpk _ _
      refine ⟨fun _ => ⟨m, [], by simp [nsLoop], hpk,
        by simp [nsInsertNames]⟩, ?_⟩
      intro k dk tl h
      simp [nsPkL] at h
  | cons q rest ih =>
      intro store m p d hval hpk hplt hdisp
      obtain ⟨n0, v⟩ := q
      have hvrest : ∀ n r, (n, NsVal.fieldI r) ∈ rest → r < store.length :=
        fun n r hm => hval n r (List.mem_cons_of_mem _ hm)
      by_cases hs : isSkipped n0 v
      · have hloopstep : nsLoop annots store m ((n0, v) :: rest) =
            nsLoop annots store m rest := by
          simp only [nsLoop, if_pos hs]
        have hmirstep : nsPkL store ((n0, v) :: rest) = nsPkL store rest := by
          simp only [nsPkL, if_pos hs]
        have hnamesstep : nsInsertNames ((n0, v) :: rest) =
            nsInsertNames rest := by
          unfold nsInsertNames
          rw [List.filter_cons, if_neg (by simpa using hs)]
        obtain ⟨part1, part2⟩ := ih store m p d hvrest hpk hplt hdisp
        constructor
        · intro hmir
          rw [hmirstep] at hmir
          obtain ⟨m', t, h1, h2, h3⟩ := part1 hmir
          exact ⟨m', t, by rw [hloopstep, h1], h2,
            fun n => by rw [hnamesstep]; exact h3 n⟩
        · intro k dk tl hmir
          rw [hmirstep] at hmir
          rw [hloopstep]
          exact part2 k dk tl hmir
      · cases v with
        | callable => exact absurd (by simp [isSkipped]) hs
        | fieldI r =>
            have hr : r < store.length := hval n0 r (List.mem_cons_self _ _)
            by_cases hpk2 : (derefF store r).primaryKey
            · have hloop : nsLoop annots store m ((n0, .fieldI r) :: rest) =
                  .error (.multiplePk (displayName (derefF store p)) n0) := by
                simp only [nsLoop, if_neg hs]
                unfold fmSetItem
                rw [if_pos hpk2]
                simp only [hpk]
              have hmirhead : nsPkL store ((n0, .fieldI r) :: rest) =
                  (n0, displayName (derefF store r)) :: nsPkL store rest := by
                simp only [nsPkL, if_neg hs, if_pos hpk2]
              constructor
              · intro hmir
                rw [hmirhead] at hmir
                simp at hmir
              · intro k dk tl hmir
                rw [hmirhead] at hmir
                have hk : n0 = k := by
                  have := congrArg (fun x => (x.headD ("", "")).1) hmir
                  simpa using this
                rw [hloop, hdisp, hk]
            · have hloopstep : nsLoop annots store m ((n0, .fieldI r) :: rest) =
                  nsLoop annots store
                    { m with entries := entUpsert m.entries n0 r } rest := by
                simp only [nsLoop, if_neg hs]
                unfold fmSetItem
                rw [if_neg hpk2]
              have hmirstep : nsPkL store ((n0, .fieldI r) :: rest) =
                  nsPkL store rest := by
                simp only [nsPkL, if_neg hs, if_neg hpk2]
              have hnamesstep : nsInsertNames ((n0, .fieldI r) :: rest) =
                  n0 :: nsInsertNames rest := by
                unfold nsInsertNames
                rw [List.filter_cons, if_pos (by simpa using hs)]
                rfl
              obtain ⟨part1, part2⟩ := ih store
                { m with entries := entUpsert m.entries n0 r } p d hvrest
                hpk hplt hdisp
              constructor
              · intro hmir
                rw [hmirstep] at hmir
                obtain ⟨m', t, h1, h2, h3⟩ := part1 hmir
                refine ⟨m', t, by rw [hloopstep, h1], h2, ?_⟩
                intro n
                rw [h3 n, hnamesstep, List.contains_cons]
                rw [contains_fmNames_mk, Bool.or_assoc]
                rfl
              · intro k dk tl hmir
                rw [hmirstep] at hmir
                rw [hloopstep]
                exact part2 k dk tl hmir
        | plain pv =>
            have hloopstep : nsLoop annots store m ((n0, .plain pv) :: rest) =
                nsLoop annots (store ++ [mkPlainField n0 pv
                    (List.lookup n0 annots)])
                  { m with
                    entries := entUpsert m.entries n0 store.length } rest := by
              simp only [nsLoop, if_neg hs]
              dsimp [allocF]
              unfold fmSetItem
              rw [derefF_alloc]
              rw [if_neg (by simp [mkPlainField])]
            have hmirstep : nsPkL store ((n0, .plain pv) :: rest) =
                nsPkL store rest := by
              simp only [nsPkL, if_neg hs]
            have hnamesstep : nsInsertNames ((n0, .plain pv) :: rest) =
                n0 :: nsInsertNames rest := by
              unfold nsInsertNames
              rw [List.filter_cons, if_pos (by simpa using hs)]
              rfl
            have hmirgrow : nsPkL (store ++ [mkPlainField n0 pv
                (List.lookup n0 annots)]) rest = nsPkL store rest :=
              nsPkL_append store _ rest hvrest
            have hlen : store.length <
                (store ++ [mkPlainField n0 pv (List.lookup n0 annots)]).length := by
              simp
            obtain ⟨part1, part2⟩ := ih
              (store ++ [mkPlainField n0 pv (List.lookup n0 annots)])
              { m with entries := entUpsert m.entries n0 store.length } p d
              (fun n r hm => lt_trans (hvrest n r hm) hlen)
              hpk (lt_trans hplt hlen)
              (by rw [derefF_append store _ p hplt]; exact hdisp)
            constructor
            · intro hmir
              rw [hmirstep] at hmir
              rw [← hmirgrow] at hmir
              obtain ⟨m', t, h1, h2, h3⟩ := part1 hmir
              refine ⟨m', [mkPlainField n0 pv (List.lookup n0 annots)] ++ t,
                ?_, h2, ?_⟩
              · rw [hloopstep, h1, List.append_assoc]
              · intro n
                rw [h3 n, hnamesstep, List.contains_cons]
                rw [contains_fmNames_mk, Bool.or_assoc]
                rfl
            · intro k dk tl hmir
              rw [hmirstep] at hmir
              rw [← hmirgrow] at hmir
              rw [hloopstep]
              exact part2 k dk tl hmir

/-- The namespace loop, started on a map with no primary key: with no
primary-key insert it succeeds with no primary key; with exactly one it
succeeds recording that descriptor as the primary key; with two or more
it raises the multiple-primary-keys error naming the first descriptor's
recorded name and the second one's key. -/
theorem nsLoop_none (annots : List (String × Ty)) :
    ∀ (l : List (String × NsVal)) (store : FieldStore) (m : FieldMap),
      (∀ n r, (n, NsVal.fieldI r) ∈ l → r < store.length) →
      m.pk = none →
      (nsPkL store l = [] →
        ∃ m' t, nsLoop annots store m l = .ok (m', store ++ t) ∧
          m'.pk = none ∧
          ∀ n, (fmNames m').contains n =
            ((fmNames m).contains n || (nsInsertNames l).contains n)) ∧
      (∀ k1 d1, nsPkL store l = [(k1, d1)] →
        ∃ m' t p, nsLoop annots store m l = .ok (m', store ++ t) ∧
          m'.pk = some p ∧ p < (store ++ t).length ∧
          displayName (derefF (store ++ t) p) = d1 ∧
          ∀ n, (fmNames m').contains n =
            ((fmNames m).contains n || (nsInsertNames l).contains n)) ∧
      (∀ k1 d1 k2 d2 tl, nsPkL store l = (k1, d1) :: (k2, d2) :: tl →
        nsLoop annots store m l = .error (.multiplePk d1 k2)) := by
  intro l
  induction l with
  | nil =>
      intro store m _ hpk
      refine ⟨fun _ => ⟨m, [], by simp [nsLoop], hpk,
        by simp [nsInsertNames]⟩, ?_, ?_⟩
      · intro k1 d1 h
        simp [nsPkL] at h
      · intro k1 d1 k2 d2 tl h
        simp [nsPkL] at h
  | cons q rest ih =>
      intro store m hval hpk
      obtain ⟨n0, v⟩ := q
      have hvrest : ∀ n r, (n, NsVal.fieldI r) ∈ rest → r < store.length :=
        fun n r hm => hval n r (List.mem_cons_of_mem _ hm)
      by_cases hs : isSkipped n0 v
      · have hloopstep : nsLoop annots store m ((n0, v) :: rest) =
            nsLoop annots store m rest := by
          simp only [nsLoop, if_pos hs]
        have hmirstep : nsPkL store ((n0, v) :: rest) = nsPkL store rest := by
          simp only [nsPkL, if_pos hs]
        have hnamesstep : nsInsertNames ((n0, v) :: rest) =
            nsInsertNames rest := by
          unfold nsInsertNames
          rw [List.filter_cons, if_neg (by simpa using hs)]
        obtain ⟨part1, part2, part3⟩ := ih store m hvrest hpk
        refine ⟨?_, ?_, ?_⟩
        · intro hmir
          rw [hmirstep] at hmir
          obtain ⟨m', t, h1, h2, h3⟩ := part1 hmir
          exact ⟨m', t, by rw [hloopstep, h1], h2,
            fun n => by rw [hnamesstep]; exact h3 n⟩
        · intro k1 d1 hmir
          rw [hmirstep] at hmir
          obtain ⟨m', t, p, h1, h2, h3, h4, h5⟩ := part2 k1 d1 hmir
          exact ⟨m', t, p, by rw [hloopstep, h1], h2, h3, h4,
            fun n => by rw [hnamesstep]; exact h5 n⟩
        · intro k1 d1 k2 d2 tl hmir
          rw [hmirstep] at hmir
          rw [hloopstep]
          exact part3 k1 d1 k2 d2 tl hmir
      · cases v with
        | callable => exact absurd (by simp [isSkipped]) hs
        | fieldI r =>
            have hr : r < store.length := hval n0 r (List.mem_cons_self _ _)
            by_cases hpk2 : (derefF store r).primaryKey
            · -- the FIRST primary-key insert: the pk slot is set to r
              have hloopstep : nsLoop annots store m
                  ((n0, .fieldI r) :: rest) =
                  nsLoop annots store
                    { entries := entUpsert m.entries n0 r, pk := some r }
                    rest := by
                simp only [nsLoop, if_neg hs]
                unfold fmSetItem
                rw [if_pos hpk2]
                simp only [hpk]
              have hmirhead : nsPkL store ((n0, .fieldI r) :: rest) =
                  (n0, displayName (derefF store r)) :: nsPkL store rest := by
                simp only [nsPkL, if_neg hs, if_pos hpk2]
              have hnamesstep : nsInsertNames ((n0, .fieldI r) :: rest) =
                  n0 :: nsInsertNames rest := by
                unfold nsInsertNames
                rw [List.filter_cons, if_pos (by simpa using hs)]
                rfl
              have hsome := nsLoop_some annots rest store
                { entries := entUpsert m.entries n0 r, pk := some r } r
                (displayName (derefF store r)) hvrest rfl hr rfl
              refine ⟨?_, ?_, ?_⟩
              · intro hmir
                rw [hmirhead] at hmir
                simp at hmir
              · intro k1 d1 hmir
                rw [hmirhead] at hmir
                have hk : n0 = k1 ∧ displayName (derefF store r) = d1 ∧
                    nsPkL store rest = [] := by
                  have h1 := congrArg
                    (fun x => (x.headD ("", "")).1) hmir
                  have h2 := congrArg
                    (fun x => (x.headD ("", "")).2) hmir
                  have h3 := congrArg List.tail hmir
                  simp at h1 h2 h3
                  exact ⟨h1, h2, h3⟩
                obtain ⟨hk1, hd1, hrest0⟩ := hk
                obtain ⟨m', t, h1, h2, h3⟩ := hsome.1 hrest0
                refine ⟨m', t, r, by rw [hloopstep, h1], h2, ?_, ?_, ?_⟩
                · calc r < store.length := hr
                    _ ≤ (store ++ t).length := by simp
                · rw [derefF_append store t r hr, hd1]
                · intro n
                  rw [h3 n, hnamesstep, List.contains_cons]
                  rw [contains_fmNames_mk, Bool.or_assoc]
                  rfl
              · intro k1 d1 k2 d2 tl hmir
                rw [hmirhead] at hmir
                have hk1 : n0 = k1 ∧ displayName (derefF store r) = d1 ∧
                    nsPkL store rest = (k2, d2) :: tl := by
                  have h1 := congrArg
                    (fun x => (x.headD ("", "")).1) hmir
                  have h2 := congrArg
                    (fun x => (x.headD ("", "")).2) hmir
                  have h3 := congrArg List.tail hmir
                  simp at h1 h2 h3
                  exact ⟨h1, h2, h3⟩
                obtain ⟨_, hd1, hrest2⟩ := hk1
                rw [hloopstep, ← hd1]
                exact hsome.2 k2 d2 tl hrest2
            · have hloopstep : nsLoop annots store m
                  ((n0, .fieldI r) :: rest) =
                  nsLoop annots store
                    { m with entries := entUpsert m.entries n0 r } rest := by
                simp only [nsLoop, if_neg hs]
                unfold fmSetItem
                rw [if_neg hpk2]
              have hmirstep : nsPkL store ((n0, .fieldI r) :: rest) =
                  nsPkL store rest := by
                simp only [nsPkL, if_neg hs, if_neg hpk2]
              have hnamesstep : nsInsertNames ((n0, .fieldI r) :: rest) =
                  n0 :: nsInsertNames rest := by
                unfold nsInsertNames
                rw [List.filter_cons, if_pos (by simpa using hs)]
                rfl
              obtain ⟨part1, part2, part3⟩ := ih store
                { m with entries := entUpsert m.entries n0 r } hvrest hpk
              have hname2 : ∀ n (m' : FieldMap),
                  ((fmNames m').contains n =
                    ((fmNames { m with
                        entries := entUpsert m.entries n0 r }).contains n ||
                      (nsInsertNames rest).contains n)) →
                  (fmNames m').contains n =
                    ((fmNames m).contains n ||
                      (nsInsertNames ((n0, .fieldI r) :: rest)).contains n) := by
                intro n m' h
                rw [h, hnamesstep, List.contains_cons]
                rw [contains_fmNames_mk, Bool.or_assoc]
                rfl
              refine ⟨?_, ?_, ?_⟩
              · intro hmir
                rw [hmirstep] at hmir
                obtain ⟨m', t, h1, h2, h3⟩ := part1 hmir
                exact ⟨m', t, by rw [hloopstep, h1], h2,
                  fun n => hname2 n m' (h3 n)⟩
              · intro k1 d1 hmir
                rw [hmirstep] at hmir
                obtain ⟨m', t, p, h1, h2, h3, h4, h5⟩ := part2 k1 d1 hmir
                exact ⟨m', t, p, by rw [hloopstep, h1], h2, h3, h4,
                  fun n => hname2 n m' (h5 n)⟩
              · intro k1 d1 k2 d2 tl hmir
                rw [hmirstep] at hmir
                rw [hloopstep]
                exact part3 k1 d1 k2 d2 tl hmir
        | plain pv =>
            have hloopstep : nsLoop annots store m ((n0, .plain pv) :: rest) =
                nsLoop annots (store ++ [mkPlainField n0 pv
                    (List.lookup n0 annots)])
                  { m with
                    entries := entUpsert m.entries n0 store.length } rest := by
              simp only [nsLoop, if_neg hs]
              dsimp [allocF]
              unfold fmSetItem
              rw [derefF_alloc]
              rw [if_neg (by simp [mkPlainField])]
            have hmirstep : nsPkL store ((n0, .plain pv) :: rest) =
                nsPkL store rest := by
              simp only [nsPkL, if_neg hs]
            have hnamesstep : nsInsertNames ((n0, .plain pv) :: rest) =
                n0 :: nsInsertNames rest := by
              unfold nsInsertNames
              rw [List.filter_cons, if_pos (by simpa using hs)]
              rfl
            have hmirgrow : nsPkL (store ++ [mkPlainField n0 pv
                (List.lookup n0 annots)]) rest = nsPkL store rest :=
              nsPkL_append store _ rest hvrest
            have hlen : store.length <
                (store ++ [mkPlainField n0 pv
                  (List.lookup n0 annots)]).length := by
              simp
            obtain ⟨part1, part2, part3⟩ := ih
              (store ++ [mkPlainField n0 pv (List.lookup n0 annots)])
              { m with entries := entUpsert m.entries n0 store.length }
              (fun n r hm => lt_trans (hvrest n r hm) hlen) hpk
            have hname2 : ∀ n (m' : FieldMap),
                ((fmNames m').contains n =
                  ((fmNames { m with
                      entries := entUpsert m.entries n0
                        store.length }).contains n ||
                    (nsInsertNames rest).contains n)) →
                (fmNames m').contains n =
                  ((fmNames m).contains n ||
                    (nsInsertNames ((n0, .plain pv) :: rest)).contains n) := by
              intro n m' h
              rw [h, hnamesstep, List.contains_cons]
              rw [contains_fmNames_mk, Bool.or_assoc]
              rfl
            refine ⟨?_, ?_, ?_⟩
            · intro hmir
              rw [hmirstep, ← hmirgrow] at hmir
              obtain ⟨m', t, h1, h2, h3⟩ := part1 hmir
              exact ⟨m', [mkPlainField n0 pv (List.lookup n0 annots)] ++ t,
                by rw [hloopstep, h1, List.append_assoc], h2,
                fun n => hname2 n m' (h3 n)⟩
            · intro k1 d1 hmir
              rw [hmirstep, ← hmirgrow] at hmir
              obtain ⟨m', t, p, h1, h2, h3, h4, h5⟩ := part2 k1 d1 hmir
              refine ⟨m', [mkPlainField n0 pv (List.lookup n0 annots)] ++ t,
                p, by rw [hloopstep, h1, List.append_assoc], h2, ?_, ?_,
                fun n => hname2 n m' (h5 n)⟩
              · rw [← List.append_assoc]
                exact h3
              · rw [← List.append_assoc]
                exact h4
            · intro k1 d1 k2 d2 tl hmir
              rw [hmirstep, ← hmirgrow] at hmir
              rw [hloopstep]
              exact part3 k1 d1 k2 d2 tl hmir

/-- The primary-key mirror of the inheritance loop is likewise stable
under heap growth. -/
theorem inhPkL_append (store t : FieldStore) :
    ∀ (l : List (String × Ref)) (names : List String),
      (∀ q ∈ l, q.2 < store.length) →
      inhPkL (store ++ t) names l = inhPkL store names l := by
  intro l
  induction l with
  | nil => intro names _; rfl
  | cons q rest ih =>
      intro names h
      obtain ⟨n, r⟩ := q
      have hrest : ∀ q ∈ rest, q.2 < store.length :=
        fun q hm => h q (List.mem_cons_of_mem _ hm)
      have hr : r < store.length := h (n, r) (List.mem_cons_self _ _)
      by_cases hc : names.contains n
      · simp only [inhPkL, if_pos hc]
        exact ih _ hrest
      · simp only [inhPkL, if_neg hc, derefF_append store t r hr]
        by_cases hcf : (derefF store r).classfield
        · simp only [if_pos hcf]
          exact ih _ hrest
        · simp only [if_neg hcf]
          by_cases hpk : (derefF store r).primaryKey
          · simp only [if_pos hpk, ih _ hrest]
          · simp only [if_neg hpk]
            exact ih _ hrest

/-- Boolean negation bridge. -/
theorem bool_eq_false {b : Bool} (h : ¬ b = true) : b = false := by
  cases b
  · rfl
  · exact absurd rfl h

/-- An inherited copy is always reported as `"Unnamed"`. -/
theorem displayName_copyCfg (f : FieldInfo) :
    displayName (copyCfg f) = "Unnamed" := rfl

/-- The inheritance loop, on a map already holding primary key `p`
displayed as `d`: the first inherited primary-key copy raises the
multiple-primary-keys error naming `d` and the offending key. -/
theorem inhFields_some :
    ∀ (l : List (String × Ref)) (store : FieldStore) (names : List String)
      (m : FieldMap) (cfm : List (String × Ref)) (p : Ref) (d : String),
      (∀ q ∈ l, q.2 < store.length) →
      (∀ n, names.contains n = (fmNames m).contains n) →
      m.pk = some p → p < store.length →
      displayName (derefF store p) = d →
      ∀ k dk tl, inhPkL store names l = (k, dk) :: tl →
        inheritFields true store m cfm l = .error (.multiplePk d k) := by
  intro l
  induction l with
  | nil =>
      intro store names m cfm p d _ _ _ _ _ k dk tl h
      simp [inhPkL] at h
  | cons q rest ih =>
      intro store names m cfm p d hval hsync hpk hplt hdisp k dk tl hmir
      obtain ⟨n0, r⟩ := q
      have hvrest : ∀ q ∈ rest, q.2 < store.length :=
        fun q hm => hval q (List.mem_cons_of_mem _ hm)
      have hr : r < store.length := hval (n0, r) (List.mem_cons_self _ _)
      by_cases hc : names.contains n0
      · have hcm : (fmNames m).contains n0 = true := by rw [← hsync]; exact hc
        have hloopstep : inheritFields true store m cfm ((n0, r) :: rest) =
            inheritFields true store m cfm rest := by
          simp only [inheritFields]
          rw [if_neg (not_not_intro hcm)]
        have hmirstep : inhPkL store names ((n0, r) :: rest) =
            inhPkL store names rest := by
          simp only [inhPkL, if_pos hc]
        rw [hmirstep] at hmir
        rw [hloopstep]
        exact ih store names m cfm p d hvrest hsync hpk hplt hdisp k dk tl
          hmir
      · have hcm : (fmNames m).contains n0 = false := by
          rw [← hsync]; exact bool_eq_false hc
        by_cases hcf : (derefF store r).classfield
        · have hloopstep : inheritFields true store m cfm ((n0, r) :: rest) =
              inheritFields true store m (entUpsert cfm n0 r) rest := by
            simp only [inheritFields]
            rw [if_pos (by rw [hcm]; simp), if_pos hcf]
          have hmirstep : inhPkL store names ((n0, r) :: rest) =
              inhPkL store names rest := by
            simp only [inhPkL, if_neg hc, if_pos hcf]
          rw [hmirstep] at hmir
          rw [hloopstep]
          exact ih store names m (entUpsert cfm n0 r) p d hvrest hsync hpk
            hplt hdisp k dk tl hmir
        · have hpkcopy : (copyCfg (derefF store r)).primaryKey =
              (derefF store r).primaryKey := rfl
          by_cases hpk2 : (derefF store r).primaryKey
          · have hloop : inheritFields true store m cfm ((n0, r) :: rest) =
                .error (.multiplePk d n0) := by
              simp only [inheritFields]
              rw [if_pos (by rw [hcm]; simp), if_neg hcf]
              dsimp [allocF]
              unfold fmSetItem
              rw [derefF_alloc]
              rw [if_pos (by rw [hpkcopy]; exact hpk2)]
              simp only [hpk]
              rw [derefF_append store _ p hplt, hdisp]
            have hmirhead : inhPkL store names ((n0, r) :: rest) =
                (n0, "Unnamed") :: inhPkL store (names ++ [n0]) rest := by
              simp only [inhPkL, if_neg hc, if_neg hcf, if_pos hpk2]
            rw [hmirhead] at hmir
            have hk : n0 = k := by
              have := congrArg (fun x => (x.headD ("", "")).1) hmir
              simpa using this
            rw [hloop, hk]
          · have hloopstep : inheritFields true store m cfm ((n0, r) :: rest) =
                inheritFields true (store ++ [copyCfg (derefF store r)])
                  { m with
                    entries := entUpsert m.entries n0 store.length } cfm
                  rest := by
              simp only [inheritFields]
              rw [if_pos (by rw [hcm]; simp), if_neg hcf]
              dsimp [allocF]
              unfold fmSetItem
              rw [derefF_alloc]
              rw [if_neg (by rw [hpkcopy]; exact hpk2)]
            have hmirstep : inhPkL store names ((n0, r) :: rest) =
                inhPkL store (names ++ [n0]) rest := by
              simp only [inhPkL, if_neg hc, if_neg hcf, if_neg hpk2]
            have hlen : store.length <
                (store ++ [copyCfg (derefF store r)]).length := by simp
            have hmirgrow : inhPkL (store ++ [copyCfg (derefF store r)])
                (names ++ [n0]) rest = inhPkL store (names ++ [n0]) rest :=
              inhPkL_append store _ rest (names ++ [n0]) hvrest
            rw [hmirstep, ← hmirgrow] at hmir
            rw [hloopstep]
            refine ih (store ++ [copyCfg (derefF store r)]) (names ++ [n0])
              { m with entries := entUpsert m.entries n0 store.length } cfm
              p d (fun q hm => lt_trans (hvrest q hm) hlen) ?_ hpk
              (lt_trans hplt hlen)
              (by rw [derefF_append store _ p hplt]; exact hdisp) k dk tl
              hmir
            intro n
            rw [contains_append, hsync n, contains_fmNames_mk]
            rw [List.contains_cons]
            cases h1 : (n == n0) <;> simp [h1, fmNames]

/-- The inheritance loop, on a map with no primary key: a second
inherited primary-key copy raises the multiple-primary-keys error naming
`"Unnamed"` (the first copy's recorded name) and the second key. -/
theorem inhFields_none :
    ∀ (l : List (String × Ref)) (store : FieldStore) (names : List String)
      (m : FieldMap) (cfm : List (String × Ref)),
      (∀ q ∈ l, q.2 < store.length) →
      (∀ n, names.contains n = (fmNames m).contains n) →
      m.pk = none →
      ∀ k1 d1 k2 d2 tl,
        inhPkL store names l = (k1, d1) :: (k2, d2) :: tl →
        inheritFields true store m cfm l = .error (.multiplePk d1 k2) := by
  intro l
  induction l with
  | nil =>
      intro store names m cfm _ _ _ k1 d1 k2 d2 tl h
      simp [inhPkL] at h
  | cons q rest ih =>
      intro store names m cfm hval hsync hpk k1 d1 k2 d2 tl hmir
      obtain ⟨n0, r⟩ := q
      have hvrest : ∀ q ∈ rest, q.2 < store.length :=
        fun q hm => hval q (List.mem_cons_of_mem _ hm)
      have hr : r < store.length := hval (n0, r) (List.mem_cons_self _ _)
      by_cases hc : names.contains n0
      · have hcm : (fmNames m).contains n0 = true := by rw [← hsync]; exact hc
        have hloopstep : inheritFields true store m cfm ((n0, r) :: rest) =
            inheritFields true store m cfm rest := by
          simp only [inheritFields]
          rw [if_neg (not_not_intro hcm)]
        have hmirstep : inhPkL store names ((n0, r) :: rest) =
            inhPkL store names rest := by
          simp only [inhPkL, if_pos hc]
        rw [hmirstep] at hmir
        rw [hloopstep]
        exact ih store names m cfm hvrest hsync hpk k1 d1 k2 d2 tl hmir
      · have hcm : (fmNames m).contains n0 = false := by
          rw [← hsync]; exact bool_eq_false hc
        by_cases hcf : (derefF store r).classfield
        · have hloopstep : inheritFields true store m cfm ((n0, r) :: rest) =
              inheritFields true store m (entUpsert cfm n0 r) rest := by
            simp only [inheritFields]
            rw [if_pos (by rw [hcm]; simp), if_pos hcf]
          have hmirstep : inhPkL store names ((n0, r) :: rest) =
              inhPkL store names rest := by
            simp only [inhPkL, if_neg hc, if_pos hcf]
          rw [hmirstep] at hmir
          rw [hloopstep]
          exact ih store names m (entUpsert cfm n0 r) hvrest hsync hpk k1 d1
            k2 d2 tl hmir
        · have hpkcopy : (copyCfg (derefF store r)).primaryKey =
              (derefF store r).primaryKey := rfl
          have hsync2 : ∀ n, (names ++ [n0]).contains n =
              (fmNames { m with
                entries := entUpsert m.entries n0 store.length }).contains
                n := by
            intro n
            rw [contains_append, hsync n, contains_fmNames_mk]
            rw [List.contains_cons]
            cases h1 : (n == n0) <;> simp [h1, fmNames]
          have hlen : store.length <
              (store ++ [copyCfg (derefF store r)]).length := by simp
          have hmirgrow : inhPkL (store ++ [copyCfg (derefF store r)])
              (names ++ [n0]) rest = inhPkL store (names ++ [n0]) rest :=
            inhPkL_append store _ rest (names ++ [n0]) hvrest
          by_cases hpk2 : (derefF store r).primaryKey
          · -- the FIRST inherited primary key: pk slot set to the copy
            have hloopstep : inheritFields true store m cfm ((n0, r) :: rest) =
                inheritFields true (store ++ [copyCfg (derefF store r)])
                  { entries := entUpsert m.entries n0 store.length,
                    pk := some store.length } cfm rest := by
              simp only [inheritFields]
              rw [if_pos (by rw [hcm]; simp), if_neg hcf]
              dsimp [allocF]
              unfold fmSetItem
              rw [derefF_alloc]
              rw [if_pos (by rw [hpkcopy]; exact hpk2)]
              simp only [hpk]
            have hmirhead : inhPkL store names ((n0, r) :: rest) =
                (n0, "Unnamed") :: inhPkL store (names ++ [n0]) rest := by
              simp only [inhPkL, if_neg hc, if_neg hcf, if_pos hpk2]
            rw [hmirhead] at hmir
            have hparts : n0 = k1 ∧ ("Unnamed" : String) = d1 ∧
                inhPkL store (names ++ [n0]) rest = (k2, d2) :: tl := by
              have h1 := congrArg (fun x => (x.headD ("", "")).1) hmir
              have h2 := congrArg (fun x => (x.headD ("", "")).2) hmir
              have h3 := congrArg List.tail hmir
              simp at h1 h2 h3
              exact ⟨h1, h2, h3⟩
            obtain ⟨hk1, hd1, hrest2⟩ := hparts
            rw [hloopstep, ← hd1]
            refine inhFields_some rest
              (store ++ [copyCfg (derefF store r)]) (names ++ [n0])
              { entries := entUpsert m.entries n0 store.length,
                pk := some store.length } cfm store.length "Unnamed"
              (fun q hm => lt_trans (hvrest q hm) hlen) hsync2 rfl hlen
              (by rw [derefF_alloc]; rfl) k2 d2 tl ?_
            rw [hmirgrow]
            exact hrest2
          · have hloopstep : inheritFields true store m cfm ((n0, r) :: rest) =
                inheritFields true (store ++ [copyCfg (derefF store r)])
                  { m with
                    entries := entUpsert m.entries n0 store.length } cfm
                  rest := by
              simp only [inheritFields]
              rw [if_pos (by rw [hcm]; simp), if_neg hcf]
              dsimp [allocF]
              unfold fmSetItem
              rw [derefF_alloc]
              rw [if_neg (by rw [hpkcopy]; exact hpk2)]
            have hmirstep : inhPkL store names ((n0, r) :: rest) =
                inhPkL store (names ++ [n0]) rest := by
              simp only [inhPkL, if_neg hc, if_neg hcf, if_neg hpk2]
            rw [hmirstep, ← hmirgrow] at hmir
            rw [hloopstep]
            exact ih (store ++ [copyCfg (derefF store r)]) (names ++ [n0])
              { m with entries := entUpsert m.entries n0 store.length } cfm
              (fun q hm => lt_trans (hvrest q hm) hlen) hsync2 hpk k1 d1 k2
              d2 tl hmir

/-- Processing an appended inheritance list is sequential composition. -/
theorem inheritFields_append :
    ∀ (hasAnn : Bool) (xs ys : List (String × Ref)) (store : FieldStore)
      (m : FieldMap) (cfm : List (String × Ref)),
      inheritFields hasAnn store m cfm (xs ++ ys) =
        (match inheritFields hasAnn store m cfm xs with
         | .error e => .error e
         | .ok (m', cfm', store') => inheritFields hasAnn store' m' cfm' ys) := by
  intro hasAnn xs
  induction xs with
  | nil => intro ys store m cfm; rfl
  | cons q rest ih =>
      intro ys store m cfm
      obtain ⟨n0, r⟩ := q
      by_cases hc : (fmNames m).contains n0
      · have hstep : ∀ l, inheritFields hasAnn store m cfm ((n0, r) :: l) =
            inheritFields hasAnn store m cfm l := by
          intro l
          simp only [inheritFields]
          rw [if_neg (not_not_intro hc)]
        rw [List.cons_append, hstep, hstep, ih]
      · have hcm : (fmNames m).contains n0 = false := bool_eq_false hc
        by_cases hcf : (derefF store r).classfield
        · have hstep : ∀ l, inheritFields hasAnn store m cfm ((n0, r) :: l) =
              inheritFields hasAnn store m (entUpsert cfm n0 r) l := by
            intro l
            simp only [inheritFields]
            rw [if_pos (by rw [hcm]; simp), if_pos hcf]
          rw [List.cons_append, hstep, hstep, ih]
        · by_cases hpk2 : (derefF store r).primaryKey
          · cases hpkslot : m.pk with
            | some p =>
                have hstep : ∀ l,
                    inheritFields hasAnn store m cfm ((n0, r) :: l) =
                    .error (.multiplePk (displayName
                      (derefF (store ++ [copyCfg (derefF store r)]) p))
                      n0) := by
                  intro l
                  simp only [inheritFields]
                  rw [if_pos (by rw [hcm]; simp), if_neg hcf]
                  dsimp [allocF]
                  unfold fmSetItem
                  rw [derefF_alloc]
                  rw [if_pos (show (copyCfg (derefF store r)).primaryKey =
                    true from hpk2)]
                  simp only [hpkslot]
                rw [List.cons_append, hstep, hstep]
            | none =>
                cases hb : hasAnn
                · subst hb
                  have hstep : ∀ l,
                      inheritFields false store m cfm ((n0, r) :: l) =
                      .error .keyErrAnn := by
                    intro l
                    simp only [inheritFields]
                    rw [if_pos (by rw [hcm]; simp), if_neg hcf]
                    dsimp [allocF]
                    unfold fmSetItem
                    rw [derefF_alloc]
                    rw [if_pos (show (copyCfg (derefF store r)).primaryKey =
                      true from hpk2)]
                    simp only [hpkslot]
                  rw [List.cons_append, hstep, hstep]
                · subst hb
                  have hstep : ∀ l,
                      inheritFields true store m cfm ((n0, r) :: l) =
                      inheritFields true (store ++ [copyCfg (derefF store r)])
                        { entries := entUpsert m.entries n0 store.length,
                          pk := some store.length } cfm l := by
                    intro l
                    simp only [inheritFields]
                    rw [if_pos (by rw [hcm]; simp), if_neg hcf]
                    dsimp [allocF]
                    unfold fmSetItem
                    rw [derefF_alloc]
                    rw [if_pos (show (copyCfg (derefF store r)).primaryKey =
                      true from hpk2)]
                    simp only [hpkslot]
                  rw [List.cons_append, hstep, hstep, ih]
          · cases hb : hasAnn
            · subst hb
              have hstep : ∀ l,
                  inheritFields false store m cfm ((n0, r) :: l) =
                  .error .keyErrAnn := by
                intro l
                simp only [inheritFields]
                rw [if_pos (by rw [hcm]; simp), if_neg hcf]
                dsimp [allocF]
                unfold fmSetItem
                rw [derefF_alloc]
                rw [if_neg (show ¬ (copyCfg (derefF store r)).primaryKey =
                  true from hpk2)]
              rw [List.cons_append, hstep, hstep]
            · subst hb
              have hstep : ∀ l,
                  inheritFields true store m cfm ((n0, r) :: l) =
                  inheritFields true (store ++ [copyCfg (derefF store r)])
                    { m with
                      entries := entUpsert m.entries n0 store.length } cfm
                    l := by
                intro l
                simp only [inheritFields]
                rw [if_pos (by rw [hcm]; simp), if_neg hcf]
                dsimp [allocF]
                unfold fmSetItem
                rw [derefF_alloc]
                rw [if_neg (show ¬ (copyCfg (derefF store r)).primaryKey =
                  true from hpk2)]
              rw [List.cons_append, hstep, hstep, ih]

/-- The per-base loop equals the loop over the flattened parents. -/
theorem inheritLoop_eq_flat :
    ∀ (hasAnn : Bool) (ps : List (List (String × Ref)))
      (store : FieldStore) (m : FieldMap) (cfm : List (String × Ref)),
      inheritLoop hasAnn store m cfm ps =
        inheritFields hasAnn store m cfm ps.flatten := by
  intro hasAnn ps
  induction ps with
  | nil => intro store m cfm; rfl
  | cons p rest ih =>
      intro store m cfm
      rw [List.flatten_cons, inheritFields_append]
      simp only [inheritLoop]
      cases h : inheritFields hasAnn store m cfm p with
      | error e => rfl
      | ok x =>
          obtain ⟨m', cfm', store'⟩ := x
          exact ih store' m' cfm'

/-- C4 amended: for every schema definition whose processing would
insert two primary-key-flagged descriptors (own body or inherited, in
any combination), construction fails with the multiple-primary-keys
`InvalidModelError`; the error names the second descriptor by its field
key, but the first one by its RECORDED name — the explicit `name=` of an
assigned `Field(...)` when given, and `"Unnamed"` otherwise (in
particular always `"Unnamed"` for an inherited copy, since
`FieldInfo.copy()` clears the name) — so it names both field names only
when the first descriptor happens to carry its field's name.  The class
namespace must carry an `__annotations__` key (`some annots`, true for
any body with an annotated statement): an annotation-less child
inheriting a non-shared field dies earlier with `KeyError` from the
`namespace["__annotations__"]` write-back at `_meta.py:137` instead. -/
theorem c4_multiple_pk_fails
    (store : FieldStore) (annots : List (String × Ty))
    (ns : List (String × NsVal)) (parents : List (List (String × Ref)))
    (hns : ∀ n r, (n, NsVal.fieldI r) ∈ ns → r < store.length)
    (hpar : ∀ p ∈ parents, ∀ q ∈ p, q.2 < store.length)
    (k1 d1 k2 d2 : String) (tl : List (String × String))
    (hpk : pkSeq store annots ns parents = (k1, d1) :: (k2, d2) :: tl) :
    namespaceCtorR store (some annots) ns parents =
      .error (.multiplePk d1 k2) := by
  obtain ⟨m1, t1, hannot, hpk1, hnames1⟩ :=
    annotLoop_spec ns annots store ⟨[], none⟩
  have hm1pk : m1.pk = none := hpk1
  have hlen1 : store.length ≤ (store ++ t1).length := by simp
  have hns' : ∀ n r, (n, NsVal.fieldI r) ∈ ns → r < (store ++ t1).length :=
    fun n r hm => lt_of_lt_of_le (hns n r hm) hlen1
  have hmirns : nsPkL (store ++ t1) ns = nsPkL store ns :=
    nsPkL_append store t1 ns hns
  have hflatval : ∀ q ∈ parents.flatten, q.2 < store.length := by
    intro q hq
    obtain ⟨p, hp, hqp⟩ := List.mem_flatten.mp hq
    exact hpar p hp q hqp
  have hfrom : fromNamespaceR store annots ns =
      nsLoop annots (store ++ t1) m1 ns := by
    unfold fromNamespaceR
    rw [hannot]
  obtain ⟨p1, p2, p3⟩ := nsLoop_none annots ns (store ++ t1) m1 hns' hm1pk
  unfold pkSeq at hpk
  rcases hnsl : nsPkL store ns with _ | ⟨⟨ka, da⟩, nsrest⟩
  · -- no primary key in the class body: both come from the parents
    rw [hnsl, List.nil_append] at hpk
    obtain ⟨m2, t2, hnsloop, hpk2, hnames2⟩ := p1 (by rw [hmirns, hnsl])
    have hsync : ∀ n, (ownNames annots ns).contains n =
        (fmNames m2).contains n := by
      intro n
      rw [hnames2 n, hnames1 n]
      unfold ownNames
      rw [contains_append]
      have hempty : (fmNames (⟨[], none⟩ : FieldMap)).contains n = false :=
        rfl
      rw [hempty]
      simp
    have hstoreB : (store ++ t1) ++ t2 = store ++ (t1 ++ t2) :=
      List.append_assoc store t1 t2
    have hmirinh : inhPkL ((store ++ t1) ++ t2) (ownNames annots ns)
        parents.flatten = inhPkL store (ownNames annots ns)
          parents.flatten := by
      rw [hstoreB]
      exact inhPkL_append store (t1 ++ t2) parents.flatten
        (ownNames annots ns) hflatval
    have hlenB : store.length ≤ ((store ++ t1) ++ t2).length := by simp
    have hinherr : inheritLoop true ((store ++ t1) ++ t2) m2 [] parents =
        .error (.multiplePk d1 k2) := by
      rw [inheritLoop_eq_flat]
      refine inhFields_none parents.flatten ((store ++ t1) ++ t2)
        (ownNames annots ns) m2 []
        (fun q hq => lt_of_lt_of_le (hflatval q hq) hlenB) hsync hpk2
        k1 d1 k2 d2 tl ?_
      rw [hmirinh]
      exact hpk
    unfold namespaceCtorR
    simp only [Option.getD_some, Option.isSome_some]
    rw [hfrom]
    simp only [hnsloop, hinherr]
  · cases nsrest with
    | nil =>
        -- exactly one primary key in the class body; the second is
        -- inherited
        rw [hnsl] at hpk
        have hparts : ka = k1 ∧ da = d1 ∧
            inhPkL store (ownNames annots ns) parents.flatten =
              (k2, d2) :: tl := by
          have h1 := congrArg (fun x => (x.headD ("", "")).1) hpk
          have h2 := congrArg (fun x => (x.headD ("", "")).2) hpk
          have h3 := congrArg List.tail hpk
          simp at h1 h2 h3
          exact ⟨h1, h2, h3⟩
        obtain ⟨hka, hda, hinh⟩ := hparts
        obtain ⟨m2, t2, p, hnsloop, hpk2, hpltB, hdispB, hnames2⟩ :=
          p2 ka da (by rw [hmirns, hnsl])
        have hsync : ∀ n, (ownNames annots ns).contains n =
            (fmNames m2).contains n := by
          intro n
          rw [hnames2 n, hnames1 n]
          unfold ownNames
          rw [contains_append]
          have hempty : (fmNames (⟨[], none⟩ : FieldMap)).contains n =
            false := rfl
          rw [hempty]
          simp
        have hstoreB : (store ++ t1) ++ t2 = store ++ (t1 ++ t2) :=
          List.append_assoc store t1 t2
        have hmirinh : inhPkL ((store ++ t1) ++ t2) (ownNames annots ns)
            parents.flatten = inhPkL store (ownNames annots ns)
              parents.flatten := by
          rw [hstoreB]
          exact inhPkL_append store (t1 ++ t2) parents.flatten
            (ownNames annots ns) hflatval
        have hlenB : store.length ≤ ((store ++ t1) ++ t2).length := by simp
        have hinherr : inheritLoop true ((store ++ t1) ++ t2) m2 []
            parents = .error (.multiplePk d1 k2) := by
          rw [inheritLoop_eq_flat]
          refine inhFields_some parents.flatten ((store ++ t1) ++ t2)
            (ownNames annots ns) m2 [] p d1
            (fun q hq => lt_of_lt_of_le (hflatval q hq) hlenB) hsync hpk2
            hpltB (by rw [← hda]; exact hdispB) k2 d2 tl ?_
          rw [hmirinh]
          exact hinh
        unfold namespaceCtorR
        simp only [Option.getD_some, Option.isSome_some]
        rw [hfrom]
        simp only [hnsloop, hinherr]
    | cons x2 xs =>
        -- two primary keys already in the class body
        obtain ⟨kb, db⟩ := x2
        rw [hnsl] at hpk
        have hparts : ka = k1 ∧ da = d1 ∧ kb = k2 ∧ db = d2 := by
          have h1 := congrArg (fun x => (x.headD ("", "")).1) hpk
          have h2 := congrArg (fun x => (x.headD ("", "")).2) hpk
          have h3 := congrArg (fun x => ((x.tail.headD ("", "")).1)) hpk
          have h4 := congrArg (fun x => ((x.tail.headD ("", "")).2)) hpk
          simp at h1 h2 h3 h4
          exact ⟨h1, h2, h3, h4⟩
        obtain ⟨hka, hda, hkb, hdb⟩ := hparts
        have hnserr : nsLoop annots (store ++ t1) m1 ns =
            .error (.multiplePk d1 k2) := by
          rw [← hda, ← hkb]
          exact p3 ka da kb db xs (by rw [hmirns, hnsl])
        unfold namespaceCtorR
        simp only [Option.getD_some, Option.isSome_some]
        rw [hfrom]
        simp only [hnserr]

/-- The amended C4 theorem at a concrete schema: one unnamed
primary-key descriptor in the class body and one inherited from a
parent; construction fails, naming the first by its recorded name
`"Unnamed"` and the second by its field key. -/
theorem c4_multiple_pk_fails_witness :
    namespaceCtorR [pkFieldNoName, parentPkField] (some [("a", 0)])
        [("a", .fieldI 0)] [[("g", 1)]] =
      .error (.multiplePk "Unnamed" "g") :=
  c4_multiple_pk_fails [pkFieldNoName, parentPkField] [("a", 0)]
    [("a", .fieldI 0)] [[("g", 1)]]
    (by
      intro n r hm
      have h := List.mem_singleton.mp hm
      have hr : r = 0 := by
        injection h with h1 h2
        injection h2 with h3
      simp [hr])
    (by
      intro p hp q hq
      have hp1 := List.mem_singleton.mp hp
      subst hp1
      have hq1 := List.mem_singleton.mp hq
      subst hq1
      decide)
    "a" "Unnamed" "g" "Unnamed" [] (by decide)

/-- A name not among the keys looks up to `none`. -/
theorem lookup_eq_none_of_not_contains :
    ∀ (l : List (String × Ref)) (n : String),
      (l.map Prod.fst).contains n = false → List.lookup n l = none := by
  intro l
  induction l with
  | nil => intro n h; rfl
  | cons p rest ih =>
      intro n h
      obtain ⟨k, r⟩ := p
      rw [List.map_cons, List.contains_cons, Bool.or_eq_false_iff] at h
      obtain ⟨h1, h2⟩ := h
      simp only [List.lookup, h1]
      exact ih n h2

/-- Upserting a key makes it look up to the new value. -/
theorem lookup_entUpsert_self :
    ∀ (l : List (String × Ref)) (n : String) (r : Ref),
      List.lookup n (entUpsert l n r) = some r := by
  intro l
  induction l with
  | nil => intro n r; simp [entUpsert, List.lookup]
  | cons p rest ih =>
      intro n r
      obtain ⟨k', r'⟩ := p
      by_cases h : k' = n
      · subst h
        simp [entUpsert, List.lookup]
      · simp only [entUpsert, if_neg h]
        simp only [List.lookup]
        rw [beq_eq_false_iff_ne.mpr (fun he => h he.symm)]
        exact ih n r

/-- Upserting one key leaves every other key's lookup unchanged. -/
theorem lookup_entUpsert_ne :
    ∀ (l : List (String × Ref)) (n k : String) (r : Ref), ¬ n = k →
      List.lookup n (entUpsert l k r) = List.lookup n l := by
  intro l
  induction l with
  | nil =>
      intro n k r h
      simp [entUpsert, List.lookup, beq_eq_false_iff_ne.mpr h]
  | cons p rest ih =>
      intro n k r h
      obtain ⟨k', r'⟩ := p
      by_cases hk : k' = k
      · subst hk
        simp only [entUpsert, if_pos rfl]
        simp only [List.lookup]
        rw [beq_eq_false_iff_ne.mpr h]
      · simp only [entUpsert, if_neg hk]
        simp only [List.lookup]
        cases h2 : (n == k')
        · simp only [h2]
          exact ih n k r h
        · simp only [h2]

/-- Upserting a different key leaves a key's filtered entries unchanged. -/
theorem filterN_entUpsert_ne :
    ∀ (l : List (String × Ref)) (n k : String) (r : Ref), ¬ k = n →
      (entUpsert l k r).filter (fun p => p.1 == n) =
        l.filter (fun p => p.1 == n) := by
  intro l
  induction l with
  | nil =>
      intro n k r h
      simp [entUpsert, beq_eq_false_iff_ne.mpr h]
  | cons p rest ih =>
      intro n k r h
      obtain ⟨k', r'⟩ := p
      by_cases hk : k' = k
      · subst hk
        have h1 : (k' == n) = false := beq_eq_false_iff_ne.mpr h
        simp [entUpsert, List.filter_cons, h1]
      · cases h2 : (k' == n)
        · simp [entUpsert, if_neg hk, List.filter_cons, h2, ih n k r h]
        · simp [entUpsert, if_neg hk, List.filter_cons, h2, ih n k r h]

/-- Upserting a key absent from the map appends exactly one entry for
it. -/
theorem filterN_entUpsert_self :
    ∀ (l : List (String × Ref)) (n : String) (r : Ref),
      l.filter (fun p => p.1 == n) = [] →
      (entUpsert l n r).filter (fun p => p.1 == n) = [(n, r)] := by
  intro l
  induction l with
  | nil => intro n r h; simp [entUpsert]
  | cons p rest ih =>
      intro n r h
      obtain ⟨k', r'⟩ := p
      rw [List.filter_cons] at h
      by_cases hk : k' = n
      · subst hk
        simp at h
      · have h1 : (k' == n) = false := beq_eq_false_iff_ne.mpr hk
        rw [if_neg (by simp [h1])] at h
        simp only [entUpsert, if_neg hk]
        rw [List.filter_cons, if_neg (by simp [h1])]
        exact ih n r h

/-- Merging in a dict with no entry for a key leaves its lookup. -/
theorem lookup_mergeDicts_none :
    ∀ (b a : List (String × Ref)) (n : String),
      b.filter (fun p => p.1 == n) = [] →
      List.lookup n (mergeDicts a b) = List.lookup n a := by
  intro b
  induction b with
  | nil => intro a n h; rfl
  | cons p rest ih =>
      intro a n h
      obtain ⟨k, r⟩ := p
      rw [List.filter_cons] at h
      by_cases hk : k = n
      · subst hk
        simp at h
      · have h1 : (k == n) = false := beq_eq_false_iff_ne.mpr hk
        rw [if_neg (by simp [h1])] at h
        have hm : mergeDicts a ((k, r) :: rest) =
            mergeDicts (entUpsert a k r) rest := rfl
        rw [hm, ih (entUpsert a k r) n h]
        exact lookup_entUpsert_ne a n k r (fun he => hk he.symm)

/-- Merging in a dict with exactly one entry for a key makes the key
look up to that entry. -/
theorem lookup_mergeDicts_single :
    ∀ (b a : List (String × Ref)) (n : String) (r : Ref),
      b.filter (fun p => p.1 == n) = [(n, r)] →
      List.lookup n (mergeDicts a b) = some r := by
  intro b
  induction b with
  | nil => intro a n r h; simp [List.filter] at h
  | cons p rest ih =>
      intro a n r h
      obtain ⟨k, v⟩ := p
      rw [List.filter_cons] at h
      by_cases hk : k = n
      · subst hk
        rw [if_pos (by simp)] at h
        injection h with h1 h2
        injection h1 with h1a h1b
        subst h1b
        have hm : mergeDicts a ((k, v) :: rest) =
            mergeDicts (entUpsert a k v) rest := rfl
        rw [hm, lookup_mergeDicts_none rest (entUpsert a k v) k h2]
        exact lookup_entUpsert_self a k v
      · have h1 : (k == n) = false := beq_eq_false_iff_ne.mpr hk
        rw [if_neg (by simp [h1])] at h
        have hm : mergeDicts a ((k, v) :: rest) =
            mergeDicts (entUpsert a k v) rest := rfl
        rw [hm]
        exact ih (entUpsert a k v) n r h

/-- The inheritance loop never touches a name it does not insert: a
name already bound in the map, or provided by no processed parent
entry, keeps its own-map lookup, its name membership, and its
class-fields-map entries; the heap only grows. -/
theorem inheritFields_preserve (n : String) (hasAnn : Bool) :
    ∀ (l : List (String × Ref)) (store : FieldStore) (m : FieldMap)
      (cfm : List (String × Ref)) (mF : FieldMap)
      (cfmF : List (String × Ref)) (storeF : FieldStore),
      ((fmNames m).contains n = true ∨ ∀ q ∈ l, q.1 ≠ n) →
      inheritFields hasAnn store m cfm l = .ok (mF, cfmF, storeF) →
      (∃ t, storeF = store ++ t) ∧
      List.lookup n mF.entries = List.lookup n m.entries ∧
      (fmNames mF).contains n = (fmNames m).contains n ∧
      cfmF.filter (fun p => p.1 == n) = cfm.filter (fun p => p.1 == n) := by
  intro l
  induction l with
  | nil =>
      intro store m cfm mF cfmF storeF hn h
      simp only [inheritFields] at h
      simp at h
      obtain ⟨h1, h2, h3⟩ := h
      subst h1; subst h2; subst h3
      exact ⟨⟨[], by simp⟩, rfl, rfl, rfl⟩
  | cons q rest ih =>
      intro store m cfm mF cfmF storeF hn h
      obtain ⟨k, r⟩ := q
      have hrest0 : (∀ q ∈ (k, r) :: rest, q.1 ≠ n) →
          ∀ q ∈ rest, q.1 ≠ n :=
        fun hall q hq => hall q (List.mem_cons_of_mem _ hq)
      by_cases hc : (fmNames m).contains k
      · have hstep : inheritFields hasAnn store m cfm ((k, r) :: rest) =
            inheritFields hasAnn store m cfm rest := by
          simp only [inheritFields]
          rw [if_neg (not_not_intro hc)]
        rw [hstep] at h
        refine ih store m cfm mF cfmF storeF ?_ h
        rcases hn with hn | hn
        · exact Or.inl hn
        · exact Or.inr (hrest0 hn)
      · have hkn : ¬ k = n := by
          rcases hn with hn | hn
          · exact fun he => hc (by rw [he]; exact hn)
          · exact hn (k, r) (List.mem_cons_self _ _)
        have hcm : (fmNames m).contains k = false := bool_eq_false hc
        by_cases hcf : (derefF store r).classfield
        · have hstep : inheritFields hasAnn store m cfm ((k, r) :: rest) =
              inheritFields hasAnn store m (entUpsert cfm k r) rest := by
            simp only [inheritFields]
            rw [if_pos (by rw [hcm]; simp), if_pos hcf]
          rw [hstep] at h
          have hrest : (fmNames m).contains n = true ∨
              ∀ q ∈ rest, q.1 ≠ n := by
            rcases hn with hn | hn
            · exact Or.inl hn
            · exact Or.inr (hrest0 hn)
          obtain ⟨ht, h1, h2, h3⟩ :=
            ih store m (entUpsert cfm k r) mF cfmF storeF hrest h
          refine ⟨ht, h1, h2, ?_⟩
          rw [h3]
          exact filterN_entUpsert_ne cfm n k r hkn
        · rcases hset : fmSetItem (store ++ [copyCfg (derefF store r)]) m k
              store.length with e | m2
          · have hstep : inheritFields hasAnn store m cfm ((k, r) :: rest) =
                .error e := by
              simp only [inheritFields]
              rw [if_pos (by rw [hcm]; simp), if_neg hcf]
              dsimp [allocF]
              simp only [hset]
            rw [hstep] at h
            exact Except.noConfusion h
          · cases hb : hasAnn
            · subst hb
              have hstep : inheritFields false store m cfm ((k, r) :: rest)
                  = .error .keyErrAnn := by
                simp only [inheritFields]
                rw [if_pos (by rw [hcm]; simp), if_neg hcf]
                dsimp [allocF]
                simp only [hset]
              rw [hstep] at h
              exact Except.noConfusion h
            subst hb
            have hstep : inheritFields true store m cfm ((k, r) :: rest) =
                inheritFields true (store ++ [copyCfg (derefF store r)]) m2
                  cfm rest := by
              simp only [inheritFields]
              rw [if_pos (by rw [hcm]; simp), if_neg hcf]
              dsimp [allocF]
              simp only [hset]
            rw [hstep] at h
            have hm2 : m2.entries = entUpsert m.entries k store.length := by
              unfold fmSetItem at hset
              by_cases hpk : (derefF (store ++ [copyCfg (derefF store r)])
                  store.length).primaryKey
              · rw [if_pos hpk] at hset
                cases hmp : m.pk with
                | some p =>
                    simp only [hmp] at hset
                    exact Except.noConfusion hset
                | none =>
                    simp only [hmp] at hset
                    injection hset with h5
                    rw [← h5]
              · rw [if_neg hpk] at hset
                injection hset with h5
                rw [← h5]
            have hcont2 : (fmNames m2).contains n =
                (fmNames m).contains n := by
              unfold fmNames
              rw [hm2, contains_entUpsert]
              rw [beq_eq_false_iff_ne.mpr (fun he => hkn he.symm)]
              simp
            have hlook2 : List.lookup n m2.entries =
                List.lookup n m.entries := by
              rw [hm2]
              exact lookup_entUpsert_ne m.entries n k store.length
                (fun he => hkn he.symm)
            have hrest : (fmNames m2).contains n = true ∨
                ∀ q ∈ rest, q.1 ≠ n := by
              rcases hn with hn | hn
              · exact Or.inl (by rw [hcont2]; exact hn)
              · exact Or.inr (hrest0 hn)
            obtain ⟨⟨t, ht⟩, h1, h2, h3⟩ :=
              ih _ m2 cfm mF cfmF storeF hrest h
            refine ⟨⟨[copyCfg (derefF store r)] ++ t,
              by rw [ht, List.append_assoc]⟩, ?_, ?_, h3⟩
            · rw [h1, hlook2]
            · rw [h2, hcont2]

/-- C6 amended: for every schema construction that succeeds, and every
field name: a name the child declares keeps the child's descriptor in
the merged map (child wins, whatever the parents provide); a name the
child does not declare and no parent provides is absent from the merged
map; and a name the child does not declare that exactly one parent
entry provides is merged — as the very same descriptor reference when
the parent field is shared (classfield), and as a freshly allocated,
unbound copy with identical configuration (`FieldInfo.copy()`, which
clears name and owner) when it is not.  When several parents provide
the same non-shared name, only the FIRST provider is merged (see the
counterexample), which is why this theorem requires a unique provider. -/
theorem c6_inheritance_merge
    (store : FieldStore) (annotsOpt : Option (List (String × Ty)))
    (ns : List (String × NsVal)) (parents : List (List (String × Ref)))
    (m0 : FieldMap) (storeA : FieldStore)
    (merged : List (String × Ref)) (mF : FieldMap) (storeF : FieldStore)
    (hfrom : fromNamespaceR store (annotsOpt.getD []) ns =
      .ok (m0, storeA))
    (hctor : namespaceCtorR store annotsOpt ns parents =
      .ok (merged, mF, storeF))
    (n : String) :
    ((fmNames m0).contains n = true →
      List.lookup n merged = List.lookup n m0.entries) ∧
    ((fmNames m0).contains n = false →
      (∀ q ∈ parents.flatten, q.1 ≠ n) →
      List.lookup n merged = none) ∧
    ((fmNames m0).contains n = false →
      ∀ (r : Ref) (l1 l2 : List (String × Ref)),
        parents.flatten = l1 ++ (n, r) :: l2 →
        (∀ q ∈ l1, q.1 ≠ n) → (∀ q ∈ l2, q.1 ≠ n) →
        r < storeA.length →
        (((derefF storeA r).classfield = true →
            List.lookup n merged = some r) ∧
         ((derefF storeA r).classfield = false →
            ∃ r', List.lookup n merged = some r' ∧
              storeA.length ≤ r' ∧
              derefF storeF r' = copyCfg (derefF storeA r)))) := by
  have hloop : ∃ cfmF,
      inheritLoop annotsOpt.isSome storeA m0 [] parents =
        .ok (mF, cfmF, storeF) ∧
      merged = mergeDicts mF.entries cfmF := by
    unfold namespaceCtorR at hctor
    simp only [hfrom] at hctor
    rcases hil : inheritLoop annotsOpt.isSome storeA m0 [] parents
      with e | x
    · simp only [hil] at hctor
      exact Except.noConfusion hctor
    · obtain ⟨m1, cfm1, s1⟩ := x
      simp only [hil] at hctor
      simp at hctor
      obtain ⟨hm, hmf, hs⟩ := hctor
      subst hmf
      subst hs
      exact ⟨cfm1, rfl, hm.symm⟩
  obtain ⟨cfmF, hil0, hmerged⟩ := hloop
  have hgen : ∃ hap : Bool,
      inheritFields hap storeA m0 [] parents.flatten =
        .ok (mF, cfmF, storeF) :=
    ⟨annotsOpt.isSome, by rw [← inheritLoop_eq_flat]; exact hil0⟩
  obtain ⟨hap, hil⟩ := hgen
  refine ⟨?_, ?_, ?_⟩
  · intro hcn
    obtain ⟨-, h1, -, h3⟩ := inheritFields_preserve n hap parents.flatten
      storeA m0 [] mF cfmF storeF (Or.inl hcn) hil
    rw [hmerged,
      lookup_mergeDicts_none cfmF mF.entries n (by rw [h3]; rfl), h1]
  · intro hcn habs
    obtain ⟨-, h1, -, h3⟩ := inheritFields_preserve n hap parents.flatten
      storeA m0 [] mF cfmF storeF (Or.inr habs) hil
    rw [hmerged,
      lookup_mergeDicts_none cfmF mF.entries n (by rw [h3]; rfl), h1]
    exact lookup_eq_none_of_not_contains m0.entries n hcn
  · intro hcn r l1 l2 hsplit hone htwo hrlt
    rw [hsplit, inheritFields_append] at hil
    rcases h1r : inheritFields hap storeA m0 [] l1 with e | x
    · simp only [h1r] at hil
      exact Except.noConfusion hil
    · obtain ⟨m1, cfm1, s1⟩ := x
      simp only [h1r] at hil
      obtain ⟨⟨t1, ht1⟩, p1, p2, p3⟩ := inheritFields_preserve n hap l1
        storeA m0 [] m1 cfm1 s1 (Or.inr hone) h1r
      have hc1 : (fmNames m1).contains n = false := by rw [p2, hcn]
      have hds1 : derefF s1 r = derefF storeA r := by
        rw [ht1]
        exact derefF_append storeA t1 r hrlt
      constructor
      · intro hcf
        have hstep : inheritFields hap s1 m1 cfm1 ((n, r) :: l2) =
            inheritFields hap s1 m1 (entUpsert cfm1 n r) l2 := by
          simp only [inheritFields]
          rw [if_pos (by rw [hc1]; simp), if_pos (by rw [hds1]; exact hcf)]
        rw [hstep] at hil
        obtain ⟨-, q1, q2, q3⟩ := inheritFields_preserve n hap l2 s1 m1
          (entUpsert cfm1 n r) mF cfmF storeF (Or.inr htwo) hil
        have hfil : cfmF.filter (fun p => p.1 == n) = [(n, r)] := by
          rw [q3]
          exact filterN_entUpsert_self cfm1 n r (by rw [p3]; rfl)
        rw [hmerged]
        exact lookup_mergeDicts_single cfmF mF.entries n r hfil
      · intro hcf
        rcases hset : fmSetItem (s1 ++ [copyCfg (derefF s1 r)]) m1 n
            s1.length with e | m2
        · have hstep : inheritFields hap s1 m1 cfm1 ((n, r) :: l2) =
              .error e := by
            simp only [inheritFields]
            rw [if_pos (by rw [hc1]; simp),
              if_neg (by rw [hds1, hcf]; simp)]
            dsimp [allocF]
            simp only [hset]
          rw [hstep] at hil
          exact Except.noConfusion hil
        · cases hb2 : hap
          · subst hb2
            have hstep : inheritFields false s1 m1 cfm1 ((n, r) :: l2) =
                .error .keyErrAnn := by
              simp only [inheritFields]
              rw [if_pos (by rw [hc1]; simp),
                if_neg (by rw [hds1, hcf]; simp)]
              dsimp [allocF]
              simp only [hset]
            rw [hstep] at hil
            exact Except.noConfusion hil
          subst hb2
          have hstep : inheritFields true s1 m1 cfm1 ((n, r) :: l2) =
              inheritFields true (s1 ++ [copyCfg (derefF s1 r)]) m2 cfm1
                l2 := by
            simp only [inheritFields]
            rw [if_pos (by rw [hc1]; simp),
              if_neg (by rw [hds1, hcf]; simp)]
            dsimp [allocF]
            simp only [hset]
          rw [hstep] at hil
          have hm2 : m2.entries = entUpsert m1.entries n s1.length := by
            unfold fmSetItem at hset
            by_cases hpk : (derefF (s1 ++ [copyCfg (derefF s1 r)])
                s1.length).primaryKey
            · rw [if_pos hpk] at hset
              cases hmp : m1.pk with
              | some p =>
                  simp only [hmp] at hset
                  exact Except.noConfusion hset
              | none =>
                  simp only [hmp] at hset
                  injection hset with h5
                  rw [← h5]
            · rw [if_neg hpk] at hset
              injection hset with h5
              rw [← h5]
          have hcont2 : (fmNames m2).contains n = true := by
            unfold fmNames
            rw [hm2, contains_entUpsert]
            simp
          obtain ⟨⟨t2, ht2⟩, q1, q2, q3⟩ := inheritFields_preserve n true
            l2 (s1 ++ [copyCfg (derefF s1 r)]) m2 cfm1 mF cfmF storeF
            (Or.inl hcont2) hil
          refine ⟨s1.length, ?_, ?_, ?_⟩
          · rw [hmerged,
              lookup_mergeDicts_none cfmF mF.entries n (by rw [q3, p3]; rfl),
              q1, hm2]
            exact lookup_entUpsert_self m1.entries n s1.length
          · rw [ht1]
            simp
          · rw [ht2, derefF_append _ t2 s1.length (by simp), derefF_alloc,
              hds1]

/-- The amended C6 theorem at a concrete schema: a child declaring one
annotated field `x`, one parent providing one non-shared field `f`; the
merged map binds `f` to a freshly allocated copy of the parent's
descriptor. -/
theorem c6_inheritance_merge_witness :
    ∃ r', List.lookup "f" [("x", 1), ("f", 2)] = some r' ∧ 2 ≤ r' ∧
      derefF [parentFieldA, mkAnnotField "x" 0, copyCfg parentFieldA] r' =
        copyCfg (derefF [parentFieldA, mkAnnotField "x" 0] 0) :=
  ((c6_inheritance_merge [parentFieldA] (some [("x", 0)]) [] [[("f", 0)]]
      ⟨[("x", 1)], none⟩ [parentFieldA, mkAnnotField "x" 0]
      [("x", 1), ("f", 2)] ⟨[("x", 1), ("f", 2)], none⟩
      [parentFieldA, mkAnnotField "x" 0, copyCfg parentFieldA]
      (by decide) (by decide) "f").2.2
    (by decide) 0 [] [] rfl (by simp) (by simp) (by decide)).2 (by decide)

end Typeyao
